import Mathlib
set_option maxRecDepth 200000
set_option maxHeartbeats 1000000
/-!
Formal model of `pretty-photos/order_photos.py` (and the helpers it uses from
`pretty-photos/utils.py`), together with proofs about its timestamp
interpolation and output-placement logic.

The Python program manipulates times as strings in the fixed format
`%Y-%m-%d_%H:%M:%S` and converts them to Unix timestamps with
`datetime.strptime(...).timestamp()` and back with
`datetime.utcfromtimestamp(...).strftime(...)`.  We model the `datetime`
library with an explicit proleptic-Gregorian calendar (the program is modelled
as running with a UTC local timezone, so `timestamp` and `utcfromtimestamp`
are mutually inverse, matching the pairing the code relies on).
-/
/-- Gregorian leap-year test (as used by Python `datetime`). -/
def isLeap (y : Nat) : Bool := (y % 4 == 0 && y % 100 != 0) || (y % 400 == 0)
/-- Number of days in year `y`. -/
def yearLen (y : Nat) : Nat := if isLeap y then 366 else 365
/-- Total number of days in the years `1, 2, ..., y`: 365 per year plus one
per leap year (`y/4 - y/100 + y/400` leap years among `1..y`). -/
def daysUpto (y : Nat) : Nat := 365 * y + y / 4 - y / 100 + y / 400
/-- Number of days of month `m` (`1`-based) in a (non-)leap year. -/
def monthLen (leap : Bool) : Nat → Nat
  | 1 => 31
  | 2 => if leap then 29 else 28
  | 3 => 31
  | 4 => 30
  | 5 => 31
  | 6 => 30
  | 7 => 31
  | 8 => 31
  | 9 => 30
  | 10 => 31
  | 11 => 30
  | 12 => 31
  | _ => 0
/-- Days of the year strictly before month `m` begins. -/
def daysBeforeMonth (leap : Bool) : Nat → Nat
  | 0 => 0
  | m + 1 => daysBeforeMonth leap m + monthLen leap m
/-- A calendar date-time value, the model of a Python naive `datetime`. -/
structure DateTime where
  year : Nat
  month : Nat
  day : Nat
  hour : Nat
  minute : Nat
  second : Nat
deriving DecidableEq
/-- The `datetime` range restrictions (`MINYEAR = 1`, `MAXYEAR = 9999`)
together with field validity. -/
def validDT (T : DateTime) : Prop :=
  1 ≤ T.year ∧ T.year ≤ 9999 ∧ 1 ≤ T.month ∧ T.month ≤ 12 ∧
  1 ≤ T.day ∧ T.day ≤ monthLen (isLeap T.year) T.month ∧
  T.hour ≤ 23 ∧ T.minute ≤ 59 ∧ T.second ≤ 59
instance : DecidablePred validDT := fun T => by unfold validDT; infer_instance
/-- Seconds since 0001-01-01 00:00:00. -/
def secsOfDT (T : DateTime) : Nat :=
  86400 * (daysUpto (T.year - 1) + daysBeforeMonth (isLeap T.year) T.month + (T.day - 1)) +
    3600 * T.hour + 60 * T.minute + T.second
/-- Seconds from 0001-01-01 to the Unix epoch 1970-01-01. -/
def EPOCH_SECS : Nat := 86400 * daysUpto 1969
/-- Seconds from 0001-01-01 to the end of year 9999 (exclusive upper bound
of the representable range). -/
def SECS_MAX : Nat := 86400 * daysUpto 9999
/-- Model of `int(datetime.timestamp())` for a naive datetime under UTC. -/
def toTimestamp (T : DateTime) : Int := (secsOfDT T : Int) - (EPOCH_SECS : Int)
/-- Days in the first `j` years of the 400-year era starting after year
`400 * q`. -/
def eraDays (q j : Nat) : Nat := daysUpto (400 * q + j) - daysUpto (400 * q)
/-- The number of complete years of the era `400*q+1 .. 400*(q+1)` that fit
before day `rem` (`0`-based) of the era: `rem / 366` is at most two years
short, so at most two corrections are needed. -/
def yearIndexInEra (q rem : Nat) : Nat :=
  if rem < eraDays q (rem / 366 + 1) then rem / 366
  else if rem < eraDays q (rem / 366 + 2) then rem / 366 + 1
  else rem / 366 + 2
/-- Scan forward month by month inside one year. -/
def peelMonths (leap : Bool) : Nat → Nat → Nat → Nat × Nat
  | 0, m, d => (m, d)
  | f + 1, m, d => if d < monthLen leap m then (m, d) else peelMonths leap f (m + 1) (d - monthLen leap m)
/-- Date-time from a count of seconds since 0001-01-01 (the calendar part of
`datetime.utcfromtimestamp`): split days into 400-year eras, locate the year
inside the era arithmetically, then scan the months. -/
def dtFromSecs (n : Nat) : DateTime :=
  let days := n / 86400
  let sod := n % 86400
  let q := days / 146097
  let rem := days % 146097
  let j := yearIndexInEra q rem
  let y := 400 * q + j + 1
  let doy := rem - eraDays q j
  let mp := peelMonths (isLeap y) 12 1 doy
  ⟨y, mp.1, mp.2 + 1, sod / 3600, sod % 3600 / 60, sod % 60⟩
/-- Model of `datetime.utcfromtimestamp` on the representable range. -/
def dtFromTimestamp (z : Int) : DateTime := dtFromSecs (z + (EPOCH_SECS : Int)).toNat
/-! ### The canonical time-string format

`_FILE_TIME_FMT = '%Y-%m-%d_%H:%M:%S'` in `order_photos.py`.  We model
`strftime` with zero-padded fixed-width fields and `strptime` as the exact
inverse on the canonical fixed-width form (including the full field-range
validation `datetime.strptime` performs). -/
/-- The decimal digit character for `k` (`k ≥ 9` clamps to `'9'`; callers
only use `k < 10`). -/
def digitChar : Nat → Char
  | 0 => '0'
  | 1 => '1'
  | 2 => '2'
  | 3 => '3'
  | 4 => '4'
  | 5 => '5'
  | 6 => '6'
  | 7 => '7'
  | 8 => '8'
  | _ => '9'
/-- Numeric value of an ASCII digit character. -/
def dval (c : Char) : Nat := c.toNat - 48
/-- ASCII digit test (the digits `strptime` accepts for `%Y` etc.). -/
def isDig (c : Char) : Bool :=
  decide (c ∈ ['0', '1', '2', '3', '4', '5', '6', '7', '8', '9'])
/-- Two-digit zero-padded field of `strftime` (`%m`, `%d`, `%H`, `%M`, `%S`). -/
def pad2 (n : Nat) : List Char := [digitChar (n / 10), digitChar (n % 10)]
/-- Four-digit zero-padded year field of `strftime` (`%Y`). -/
def pad4 (n : Nat) : List Char :=
  [digitChar (n / 1000), digitChar (n / 100 % 10), digitChar (n / 10 % 10), digitChar (n % 10)]
/-- Model of `datetime.strftime('%Y-%m-%d_%H:%M:%S')`. -/
def format_file_time (T : DateTime) : String :=
  ⟨pad4 T.year ++ '-' :: pad2 T.month ++ '-' :: pad2 T.day ++ '_' :: pad2 T.hour ++
    ':' :: pad2 T.minute ++ ':' :: pad2 T.second⟩
/-- Model of `datetime.strptime(s, '%Y-%m-%d_%H:%M:%S')` on the canonical
fixed-width form, returning `none` where Python raises `ValueError`
(including the field-range validation performed by the `datetime`
constructor). -/
def parseList : List Char → Option DateTime
  | [y1, y2, y3, y4, a1, m1, m2, a2, d1, d2, a3, h1, h2, a4, i1, i2, a5, s1, s2] =>
    if a1 = '-' ∧ a2 = '-' ∧ a3 = '_' ∧ a4 = ':' ∧ a5 = ':' ∧
        isDig y1 = true ∧ isDig y2 = true ∧ isDig y3 = true ∧ isDig y4 = true ∧
        isDig m1 = true ∧ isDig m2 = true ∧ isDig d1 = true ∧ isDig d2 = true ∧
        isDig h1 = true ∧ isDig h2 = true ∧ isDig i1 = true ∧ isDig i2 = true ∧
        isDig s1 = true ∧ isDig s2 = true then
      if validDT ⟨dval y1 * 1000 + dval y2 * 100 + dval y3 * 10 + dval y4,
          dval m1 * 10 + dval m2, dval d1 * 10 + dval d2, dval h1 * 10 + dval h2,
          dval i1 * 10 + dval i2, dval s1 * 10 + dval s2⟩ then
        some ⟨dval y1 * 1000 + dval y2 * 100 + dval y3 * 10 + dval y4,
          dval m1 * 10 + dval m2, dval d1 * 10 + dval d2, dval h1 * 10 + dval h2,
          dval i1 * 10 + dval i2, dval s1 * 10 + dval s2⟩
      else none
    else none
  | _ => none
/-- String-level `strptime` model. -/
def parse_file_time (s : String) : Option DateTime := parseList s.data
/-- Unix timestamp of a canonical time string:
`int(datetime.strptime(s, _FILE_TIME_FMT).timestamp())`, `none` where Python
raises `ValueError`. -/
def time_ts (s : String) : Option Int := (parse_file_time s).map toTimestamp
/-! ### Python string helpers used by `order_photos.py` -/
/-- `_INTERPOLATED_SUFFIX = '_interpolated_time'`. -/
def INTERPOLATED_SUFFIX : String := "_interpolated_time"
/-- `_COMMON_INTERPOLATION_PREFIX = 'IMG_'` (the marker an eligible stem must
contain; renamed here for Lean). -/
def COMMON_INTERPOLATION_MARKER : String := "IMG_"
/-- First occurrence split: `some (before, after)` where `before` are the
characters strictly before the first occurrence of `sep` and `after` those
strictly after it; `none` when `sep` does not occur (models how Python
`str.split(sep)` chunks arise, for non-empty `sep`). -/
def splitFirst? (sep : List Char) : List Char → Option (List Char × List Char)
  | [] => none
  | c :: rest =>
    if sep.isPrefixOf (c :: rest) then some ([], (c :: rest).drop sep.length)
    else (splitFirst? sep rest).map (fun q => (c :: q.1, q.2))
/-- Python `s.split(sep)[0]`: characters before the first occurrence of
`sep`, or all of `s` when `sep` does not occur. -/
def beforeFirst (sep l : List Char) : List Char :=
  match splitFirst? sep l with
  | some q => q.1
  | none => l
/-- Python `s.split(sep)[1]`: `none` models the `IndexError` when `sep` does
not occur. -/
def pySplitSecond? (sep l : List Char) : Option (List Char) :=
  (splitFirst? sep l).map (fun q => beforeFirst sep q.2)
/-- `try_remove_interpolated_suffix` from `order_photos.py`:
`time.split(_INTERPOLATED_SUFFIX)[0]` when `time` ends with the suffix,
otherwise `time` unchanged. -/
def try_remove_interpolated_suffix (time : String) : String :=
  if INTERPOLATED_SUFFIX.data.isSuffixOf time.data then
    ⟨beforeFirst INTERPOLATED_SUFFIX.data time.data⟩
  else time
/-- ASCII whitespace stripped by Python `int(str)`. -/
def isPySpace (c : Char) : Bool :=
  decide (c = ' ' ∨ c = '\t' ∨ c = '\n' ∨ c = '\r' ∨ c = '\x0b' ∨ c = '\x0c')
/-- Digit run with optional single underscores between digits (Python 3.6+
integer-literal grouping), checked after the first digit. -/
def digitsUnders : List Char → Bool
  | [] => true
  | '_' :: c :: rest => isDig c && digitsUnders rest
  | c :: rest => isDig c && digitsUnders rest
/-- Model of Python `int(s)` succeeding (ASCII form): optional surrounding
whitespace, optional sign, then a non-empty digit run with optional single
underscores between digits. -/
def isPythonInt (s : String) : Bool :=
  match ((s.data.dropWhile isPySpace).reverse.dropWhile isPySpace).reverse with
  | '+' :: c :: rest => isDig c && digitsUnders rest
  | '-' :: c :: rest => isDig c && digitsUnders rest
  | '+' :: [] => false
  | '-' :: [] => false
  | c :: rest => isDig c && digitsUnders rest
  | [] => false
/-- Index of the last `'.'` in the list, if any (Python `str.rfind('.')`). -/
def rfindDotAux : List Char → Nat → Option Nat → Option Nat
  | [], _, best => best
  | c :: rest, i, best => rfindDotAux rest (i + 1) (if c = '.' then some i else best)
def rfindDot (l : List Char) : Option Nat := rfindDotAux l 0 none
/-- `pathlib.PurePath.stem`: the file name without its (final) extension.
Input paths are modelled by their file name (all inputs live in one
directory). -/
def pathStem (p : String) : String :=
  match rfindDot p.data with
  | some i => if 0 < i ∧ i < p.data.length - 1 then ⟨p.data.take i⟩ else p
  | none => p
/-- `get_extension_from_path` from `utils.py`: `path.suffix[1:]`. -/
def get_extension_from_path (p : String) : String :=
  match rfindDot p.data with
  | some i => if 0 < i ∧ i < p.data.length - 1 then ⟨p.data.drop (i + 1)⟩ else ""
  | none => ""
/-- `is_valid_for_interpolation` from `order_photos.py`:
`int(photo_path.stem.split('IMG_')[1].split('.')[0])` succeeds
(`IndexError`, `ValueError` and `TypeError` give `False`). -/
def is_valid_for_interpolation (p : String) : Bool :=
  match pySplitSecond? COMMON_INTERPOLATION_MARKER.data (pathStem p).data with
  | some seg => isPythonInt ⟨beforeFirst ['.'] seg⟩
  | none => false
/-! ### The time registry and the interpolation engine -/
/-- The `photo_times` dict: an insertion-ordered association list from path
to optional canonical time string. -/
abbrev Registry := List (String × Option String)
def regKeys (m : Registry) : List String := m.map Prod.fst
/-- `photo_times[p]` (with a missing key conflated with a `None` value; the
engine only ever looks up keys of the dict). -/
def lookupTime (m : Registry) (p : String) : Option String :=
  match m.find? (fun e => e.1 == p) with
  | some e => e.2
  | none => none
/-- `photo_times[p] = v`: replace in place (keys of the dict model occur at
most once), or append when the key is new (Python dict assignment
semantics). -/
def updateTime (m : Registry) (p : String) (v : Option String) : Registry :=
  match m with
  | [] => [(p, v)]
  | e :: rest => if e.1 == p then (p, v) :: rest else e :: updateTime rest p v
/-- The neighbor scan of `interpolate_photo_times`: first key in scan order
that passes the eligibility filter and has a non-`None` time. -/
def findNeighborTime (m : Registry) : List String → Option String
  | [] => none
  | k :: rest =>
    if is_valid_for_interpolation k then
      match lookupTime m k with
      | some t => some t
      | none => findNeighborTime m rest
    else findNeighborTime m rest
/-- A random integer source honouring the `random.randint(lo, hi)` contract
`lo ≤ result ≤ hi` for every non-empty range. -/
def randOK (rand : Int → Int → Int) : Prop :=
  ∀ lo hi : Int, lo ≤ hi → lo ≤ rand lo hi ∧ rand lo hi ≤ hi
/-- `get_random_time_between` from `order_photos.py`, with
`min_ts = mnv + 1` and `max_ts = mxv - 1` inlined.  `none` models a
`ValueError`: from `strptime` on an unparseable bound, from the explicit
`raise` when `max_ts < min_ts`, or from `random.randint(min_ts + 1,
max_ts - 1)` on an empty range; all three are caught by the same
`except ValueError` in `interpolate_photo_times`. -/
def get_random_time_between (rand : Int → Int → Int) (min_time max_time : String) :
    Option String :=
  match time_ts min_time, time_ts max_time with
  | some mnv, some mxv =>
    if mxv - 1 < mnv + 1 then none
    else if mnv + 1 + 1 ≤ mxv - 1 - 1 then
      some (format_file_time (dtFromTimestamp (rand (mnv + 1 + 1) (mxv - 1 - 1))))
    else none
  | _, _ => none
/-- `get_year_from_time` from `order_photos.py`; `none` models the
`ValueError` of `strptime`. -/
def get_year_from_time (time : String) : Option Nat :=
  (parse_file_time time).map DateTime.year
/-- One iteration of the `for photo_ind, photo_path in enumerate(...)` loop
body of `interpolate_photo_times`, for the file `p`; `prevRev` is the list
of earlier keys nearest-first, `nexts` the list of later keys in order. -/
def interpolateStep (rand : Int → Int → Int) (m : Registry) (prevRev nexts : List String)
    (p : String) : Registry :=
  match lookupTime m p with
  | some _ => m
  | none =>
    if is_valid_for_interpolation p then
      match findNeighborTime m prevRev with
      | none => m
      | some prev_time =>
        match findNeighborTime m nexts with
        | none => m
        | some next_time =>
          match get_random_time_between rand
              (try_remove_interpolated_suffix prev_time) next_time with
          | none => m
          | some t => updateTime m p (some (t ++ INTERPOLATED_SUFFIX))
    else m
/-- The whole loop of `interpolate_photo_times` over the sorted key list. -/
def interpolateGo (rand : Int → Int → Int) : List String → List String → Registry → Registry
  | [], _, m => m
  | p :: rest, prevRev, m =>
    interpolateGo rand rest (p :: prevRev) (interpolateStep rand m prevRev rest p)
/-- Code-point comparison of strings (Python `str` comparison, used by
`sorted` on same-directory `Path`s). -/
def strLeChars : List Char → List Char → Bool
  | [], _ => true
  | _ :: _, [] => false
  | a :: as, b :: bs =>
    if a.toNat < b.toNat then true
    else if b.toNat < a.toNat then false
    else strLeChars as bs
def strLe (a b : String) : Bool := strLeChars a.data b.data
/-- `sorted(photo_times.keys())` (paths all live in one directory, so `Path`
ordering is code-point string ordering of the names). -/
def sortKeys (m : Registry) : List String :=
  (regKeys m).insertionSort (fun a b => strLe a b = true)
/-- `interpolate_photo_times` from `order_photos.py`, parameterised by the
random source. -/
def interpolate_photo_times (rand : Int → Int → Int) (m : Registry) : Registry :=
  interpolateGo rand (sortKeys m) [] m
/-! ### Output placement (`save_photos_with_times`) -/
/-- `_SPLIT_INTO_YEARS = True`. -/
def SPLIT_INTO_YEARS : Bool := true
/-- Destination of one file: which root it goes under (`true` = the
"with time" tree, `false` = `without-time/`), the optional year bucket, and
the output file name. -/
structure Dest where
  withTime : Bool
  yearDir : Option Nat
  name : String
deriving DecidableEq
/-- Destination computed by one iteration of the `save_photos_with_times`
loop; `none` models the fatal re-`raise` of the `ValueError` from year
extraction. -/
def save_dest (p : String) (t : Option String) : Option Dest :=
  match t with
  | some time =>
    if SPLIT_INTO_YEARS then
      match get_year_from_time (try_remove_interpolated_suffix time) with
      | some y => some ⟨true, some y, time ++ "." ++ get_extension_from_path p⟩
      | none => none
    else some ⟨true, none, time ++ "." ++ get_extension_from_path p⟩
  | none => some ⟨false, none, pathStem p ++ "." ++ get_extension_from_path p⟩
/-- The `save_photos_with_times` loop as explicit state passing: the loop
body only reads the registry, so the registry state is threaded through
unchanged; `none` models the fatal abort. -/
def saveLoop (reg : Registry) : List (String × Option String) → Option (List Dest) × Registry
  | [] => (some [], reg)
  | (p, t) :: rest =>
    match save_dest p t with
    | none => (none, reg)
    | some d =>
      match saveLoop reg rest with
      | (some ds, reg2) => (some (d :: ds), reg2)
      | (none, reg2) => (none, reg2)
/-- `save_photos_with_times` from `order_photos.py`: destinations of all
registry entries in insertion order, plus the registry as left behind. -/
def save_photos_with_times (m : Registry) : Option (List Dest) × Registry := saveLoop m m
/-! ### Metadata parsing (`parse_photo_times`) -/
def PHOTO_EXTENSIONS : List String := ["JPG", "jpg", "JPEG", "jpeg", "PNG", "png"]
def VIDEO_EXTENSIONS : List String := ["MOV", "mov"]
/-- Photo raw-time normalisation in `parse_photo_times`:
`photo_time[:10].replace(':', '-') + photo_time[10:]` then
`.replace(' ', '_')`. -/
def normalize_photo_time (raw : String) : String :=
  ⟨(((raw.data.take 10).map fun c => if c = ':' then '-' else c) ++ raw.data.drop 10).map
    fun c => if c = ' ' then '_' else c⟩
/-- `get_video_creation_time`: the probed `creation_time` tag truncated to 19
characters.  `videoProbe p = none` models any failure of
`ffmpeg.probe(...)['streams'][0]['tags']['creation_time']`; no failure is
caught here. -/
def get_video_creation_time (videoProbe : String → Option String) (p : String) :
    Option String :=
  (videoProbe p).map fun s => ⟨s.data.take 19⟩
/-- Video raw-time normalisation in `parse_photo_times`:
`video_time.replace('T', '_')`. -/
def normalize_video_time (raw : String) : String :=
  ⟨raw.data.map fun c => if c = 'T' then '_' else c⟩
/-- `parse_photo_times` from `order_photos.py` over the regular files of the
input directory, in listing order.  `photoExif p = none` models
`Image.open(p)._getexif()[36867]` raising `KeyError` or `TypeError` (exactly
the exceptions the photo branch catches); the file is then registered with
time `None` and the run continues.  A video failure (`videoProbe p = none`)
is not caught: the whole run aborts, modelled by a `none` result. -/
def parse_photo_times (photoExif videoProbe : String → Option String) :
    List String → Option Registry
  | [] => some []
  | p :: rest =>
    if get_extension_from_path p ∈ PHOTO_EXTENSIONS then
      (parse_photo_times photoExif videoProbe rest).map
        (fun l => (p, (photoExif p).map normalize_photo_time) :: l)
    else if get_extension_from_path p ∈ VIDEO_EXTENSIONS then
      match get_video_creation_time videoProbe p with
      | some raw =>
        (parse_photo_times photoExif videoProbe rest).map
          (fun l => (p, some (normalize_video_time raw)) :: l)
      | none => none
    else
      parse_photo_times photoExif videoProbe rest
/-! ### Example inputs -/
/-- Example registry: a missing time strictly between two known times ten
seconds apart. -/
def exReg1 : Registry :=
  [("IMG_1.jpg", some "2021-01-01_10:00:00"), ("IMG_2.jpg", none),
   ("IMG_3.jpg", some "2021-01-01_10:00:10")]
/-- Example registry: a missing time between two known times two seconds
apart (`nextTs - 1 ≥ prevTs + 1` but the candidate pool is empty). -/
def exReg2 : Registry :=
  [("IMG_1.jpg", some "2021-01-01_10:00:00"), ("IMG_2.jpg", none),
   ("IMG_3.jpg", some "2021-01-01_10:00:02")]
/-- Example registry with a timeless file that fails the eligibility
filter. -/
def exReg3 : Registry :=
  [("IMG_1.jpg", some "2021-01-01_10:00:00"), ("holiday.jpg", none),
   ("IMG_3.jpg", some "2021-01-01_10:00:10")]
/-- A concrete random source obeying the `randint` contract (always the low
bound). -/
def exRand : Int → Int → Int := fun lo _ => lo
/-- Oracles for the C5 witness: every metadata read fails. -/
def exBrokenMeta : String → Option String := fun _ => none
/-! ### The arguments passed to `get_random_time_between` during a pass -/
/-- Instrumented loop body: same registry result as `interpolateStep`, plus
the `(min_time, max_time)` argument pair passed to
`get_random_time_between`, when that call is reached. -/
def interpolateStepT (rand : Int → Int → Int) (m : Registry) (prevRev nexts : List String)
    (p : String) : Registry × List (String × String) :=
  match lookupTime m p with
  | some _ => (m, [])
  | none =>
    if is_valid_for_interpolation p then
      match findNeighborTime m prevRev with
      | none => (m, [])
      | some prev_time =>
        match findNeighborTime m nexts with
        | none => (m, [])
        | some next_time =>
          (match get_random_time_between rand
              (try_remove_interpolated_suffix prev_time) next_time with
           | none => m
           | some t => updateTime m p (some (t ++ INTERPOLATED_SUFFIX)),
           [(try_remove_interpolated_suffix prev_time, next_time)])
    else (m, [])
/-- Instrumented loop: registry result plus all
`get_random_time_between` argument pairs, in call order. -/
def interpolateGoT (rand : Int → Int → Int) :
    List String → List String → Registry → Registry × List (String × String)
  | [], _, m => (m, [])
  | p :: rest, prevRev, m =>
    ((interpolateGoT rand rest (p :: prevRev) (interpolateStepT rand m prevRev rest p).1).1,
     (interpolateStepT rand m prevRev rest p).2 ++
       (interpolateGoT rand rest (p :: prevRev) (interpolateStepT rand m prevRev rest p).1).2)
/-- Instrumented `interpolate_photo_times`. -/
def interpolate_photo_timesT (rand : Int → Int → Int) (m : Registry) :
    Registry × List (String × String) :=
  interpolateGoT rand (sortKeys m) [] m

/-! ### Theorems -/

theorem yearLen_ge (y : Nat) : 365 ≤ yearLen y := by
  unfold yearLen; split <;> omega
theorem daysUpto_zero : daysUpto 0 = 0 := rfl
theorem isLeap_iff (y : Nat) : isLeap y = true ↔ ((y % 4 = 0 ∧ y % 100 ≠ 0) ∨ y % 400 = 0) := by
  unfold isLeap
  simp [Bool.or_eq_true, Bool.and_eq_true, beq_iff_eq, bne_iff_ne]
theorem daysUpto_succ (y : Nat) : daysUpto (y + 1) = daysUpto y + yearLen (y + 1) := by
  unfold daysUpto yearLen
  rw [Nat.succ_div, Nat.succ_div, Nat.succ_div]
  cases hl : isLeap (y + 1) with
  | true =>
    have hp := (isLeap_iff (y + 1)).mp hl
    rw [show (if (true = true) then (366 : Nat) else 365) = 366 from rfl]
    split_ifs with d1 d2 d3 <;> omega
  | false =>
    have hp : ¬((y + 1) % 4 = 0 ∧ (y + 1) % 100 ≠ 0) ∧ ¬((y + 1) % 400 = 0) := by
      constructor
      · intro hc
        rw [(isLeap_iff (y + 1)).mpr (Or.inl hc)] at hl
        cases hl
      · intro hc
        rw [(isLeap_iff (y + 1)).mpr (Or.inr hc)] at hl
        cases hl
    rw [show (if (false = true) then (366 : Nat) else 365) = 365 from rfl]
    obtain ⟨hp1, hp2⟩ := hp
    rw [not_and_or, not_not] at hp1
    split_ifs with d1 d2 d3 <;> omega
theorem daysUpto_le {a b : Nat} (h : a ≤ b) : daysUpto a ≤ daysUpto b := by
  induction b with
  | zero =>
    have : a = 0 := by omega
    subst this; exact le_refl _
  | succ b ih =>
    rcases Nat.lt_or_ge a (b + 1) with h' | h'
    · have h1 := ih (by omega)
      have h2 := daysUpto_succ b
      have := yearLen_ge (b + 1)
      omega
    · have : a = b + 1 := by omega
      subst this; exact le_refl _
theorem daysUpto_lt {a b : Nat} (h : a < b) : daysUpto a < daysUpto b := by
  have h1 : daysUpto (a + 1) ≤ daysUpto b := daysUpto_le (by omega)
  have h2 := daysUpto_succ a
  have := yearLen_ge (a + 1)
  omega
theorem eraDays_succ (q j : Nat) :
    eraDays q (j + 1) = eraDays q j + yearLen (400 * q + j + 1) := by
  have h1 := daysUpto_succ (400 * q + j)
  have hxy : 400 * q + (j + 1) = 400 * q + j + 1 := by omega
  have h4 : daysUpto (400 * q) ≤ daysUpto (400 * q + j) := daysUpto_le (by omega)
  unfold eraDays
  rw [hxy]
  omega
theorem eraDays_le (q : Nat) : ∀ j : Nat, 365 * j ≤ eraDays q j ∧ eraDays q j ≤ 366 * j := by
  intro j
  induction j with
  | zero => simp [eraDays]
  | succ j ih =>
    have h1 := eraDays_succ q j
    have h2 := yearLen_ge (400 * q + j + 1)
    have h3 : yearLen (400 * q + j + 1) ≤ 366 := by
      unfold yearLen
      split <;> omega
    omega
theorem eraDays_mono (q : Nat) {a b : Nat} (h : a ≤ b) : eraDays q a ≤ eraDays q b := by
  have h1 : daysUpto (400 * q + a) ≤ daysUpto (400 * q + b) := daysUpto_le (by omega)
  have h2 : daysUpto (400 * q) ≤ daysUpto (400 * q + a) := daysUpto_le (by omega)
  unfold eraDays
  omega
theorem eraDays_400 (q : Nat) : eraDays q 400 = 146097 := by
  have h0 : eraDays q 0 = 0 := by simp [eraDays]
  have hstep : ∀ j, eraDays q (j + 1) = eraDays q j + yearLen (400 * q + j + 1) :=
    eraDays_succ q
  -- compute via the closed formula instead: both endpoints are exact multiples
  unfold eraDays daysUpto
  have e1 : (400 * q + 400) / 4 = 100 * q + 100 := by omega
  have e2 : (400 * q + 400) / 100 = 4 * q + 4 := by omega
  have e3 : (400 * q + 400) / 400 = q + 1 := by omega
  have e4 : (400 * q) / 4 = 100 * q := by omega
  have e5 : (400 * q) / 100 = 4 * q := by omega
  have e6 : (400 * q) / 400 = q := by omega
  rw [e1, e2, e3, e4, e5, e6]
  omega
/-- The year index chosen by `yearIndexInEra` is the correct one: day `rem`
of the era falls inside era-year `j + 1`. -/
theorem yearIndexInEra_spec {q rem : Nat} (h : rem < 146097) :
    eraDays q (yearIndexInEra q rem) ≤ rem ∧
    rem < eraDays q (yearIndexInEra q rem + 1) ∧ yearIndexInEra q rem ≤ 399 := by
  have h400 := eraDays_400 q
  have hj0 : rem / 366 ≤ 399 := by omega
  have hj0le : 366 * (rem / 366) ≤ rem := by omega
  have hj0lt : rem < 366 * (rem / 366 + 1) := by omega
  unfold yearIndexInEra
  split
  · rename_i h1
    obtain ⟨_, hu⟩ := eraDays_le q (rem / 366)
    refine ⟨by omega, h1, ?_⟩
    by_contra hc
    have := eraDays_mono q (show 400 ≤ rem / 366 by omega)
    omega
  · rename_i h1
    split
    · rename_i h2
      refine ⟨by omega, h2, ?_⟩
      by_contra hc
      have := eraDays_mono q (show 400 ≤ rem / 366 + 1 by omega)
      omega
    · rename_i h2
      obtain ⟨hl3, _⟩ := eraDays_le q (rem / 366 + 2 + 1)
      refine ⟨by omega, by omega, ?_⟩
      by_contra hc
      have := eraDays_mono q (show 400 ≤ rem / 366 + 2 by omega)
      omega
theorem peelMonths_spec : ∀ (b : Bool) (doy : Nat), doy < (if b then 366 else 365) →
    ∃ mo e, peelMonths b 12 1 doy = (mo, e) ∧ 1 ≤ mo ∧ mo ≤ 12 ∧
      e < monthLen b mo ∧ daysBeforeMonth b mo + e = doy := by
  intro b
  have : ∀ (b : Bool), ∀ doy < 366,
      (doy < (if b then 366 else 365) →
        1 ≤ (peelMonths b 12 1 doy).1 ∧ (peelMonths b 12 1 doy).1 ≤ 12 ∧
        (peelMonths b 12 1 doy).2 < monthLen b (peelMonths b 12 1 doy).1 ∧
        daysBeforeMonth b (peelMonths b 12 1 doy).1 + (peelMonths b 12 1 doy).2 = doy) := by
    decide
  intro doy hdoy
  have hb : doy < 366 := by split at hdoy <;> omega
  obtain ⟨h1, h2, h3, h4⟩ := this b doy hb hdoy
  exact ⟨(peelMonths b 12 1 doy).1, (peelMonths b 12 1 doy).2, rfl, h1, h2, h3, h4⟩
theorem monthLen_le (b : Bool) (m : Nat) : monthLen b m ≤ 31 := by
  unfold monthLen
  split <;> first | omega | (split <;> omega)
theorem dtFromSecs_correct {n : Nat} (h : n < SECS_MAX) :
    secsOfDT (dtFromSecs n) = n ∧ validDT (dtFromSecs n) := by
  have hS : SECS_MAX = 86400 * daysUpto 9999 := rfl
  unfold dtFromSecs
  dsimp only
  generalize hq : n / 86400 / 146097 = q
  generalize hrem : n / 86400 % 146097 = rem
  generalize hj : yearIndexInEra q rem = j
  generalize hdoy : rem - eraDays q j = doy
  have hrem146 : rem < 146097 := by omega
  have hspec := yearIndexInEra_spec (q := q) hrem146
  rw [hj] at hspec
  obtain ⟨hle, hlt, hj399⟩ := hspec
  have hsucc : eraDays q (j + 1) = eraDays q j + yearLen (400 * q + j + 1) := eraDays_succ q j
  have hdoylt : doy < yearLen (400 * q + j + 1) := by omega
  have hdoyb : doy < (if isLeap (400 * q + j + 1) then 366 else 365) := by
    have hyl : yearLen (400 * q + j + 1) = if isLeap (400 * q + j + 1) then 366 else 365 := rfl
    omega
  obtain ⟨mo, dd, hpm, hm1, hm2, hdd, hmsum⟩ :=
    peelMonths_spec (isLeap (400 * q + j + 1)) doy hdoyb
  rw [hpm]
  have hDodef : eraDays q j = daysUpto (400 * q + j) - daysUpto (400 * q) := rfl
  have hera : daysUpto (400 * q) = 146097 * q := by unfold daysUpto; omega
  have hmono : daysUpto (400 * q) ≤ daysUpto (400 * q + j) := daysUpto_le (by omega)
  have hbef : daysUpto (400 * q + j) ≤ n / 86400 := by omega
  constructor
  · show 86400 * (daysUpto (400 * q + j + 1 - 1) +
      daysBeforeMonth (isLeap (400 * q + j + 1)) mo + (dd + 1 - 1)) +
      3600 * (n % 86400 / 3600) + 60 * (n % 86400 % 3600 / 60) + n % 86400 % 60 = n
    have h1 : 400 * q + j + 1 - 1 = 400 * q + j := by omega
    rw [h1]
    have hix : daysUpto (400 * q + j) + daysBeforeMonth (isLeap (400 * q + j + 1)) mo + dd =
        n / 86400 := by
      omega
    omega
  · unfold validDT
    dsimp only
    have hy2 : 400 * q + j + 1 ≤ 9999 := by
      have hlt9999 : n / 86400 < daysUpto 9999 := by omega
      by_contra hc
      have := daysUpto_le (show 9999 ≤ 400 * q + j by omega)
      omega
    exact ⟨by omega, hy2, hm1, hm2, by omega, by omega, by omega, by omega, by omega⟩
/-- Valid date-times sit inside the representable seconds range. -/
theorem secsOfDT_lt_max {T : DateTime} (h : validDT T) : secsOfDT T < SECS_MAX := by
  obtain ⟨h1, h2, h3, h4, h5, h6, h7, h8, h9⟩ := h
  have hinYear : ∀ (b : Bool), ∀ m < 13, ∀ d < 32,
      (1 ≤ m → 1 ≤ d → d ≤ monthLen b m →
        daysBeforeMonth b m + (d - 1) < (if b then 366 else 365)) := by
    decide
  have hml := monthLen_le (isLeap T.year) T.month
  have hy : daysBeforeMonth (isLeap T.year) T.month + (T.day - 1) < yearLen T.year := by
    have := hinYear (isLeap T.year) T.month (by omega) T.day (by omega) h3 h5 h6
    have hyl : yearLen T.year = if isLeap T.year then 366 else 365 := rfl
    omega
  have hup : daysUpto (T.year - 1 + 1) = daysUpto (T.year - 1) + yearLen (T.year - 1 + 1) :=
    daysUpto_succ (T.year - 1)
  have hy1 : T.year - 1 + 1 = T.year := by omega
  rw [hy1] at hup
  have hle : daysUpto T.year ≤ daysUpto 9999 := daysUpto_le h2
  have hS : SECS_MAX = 86400 * daysUpto 9999 := rfl
  unfold secsOfDT
  have hfin : daysUpto (T.year - 1) + daysBeforeMonth (isLeap T.year) T.month + (T.day - 1) + 1 ≤
      daysUpto 9999 := by omega
  omega
/-- Round trip: converting a representable timestamp to a date-time and back
is the identity, and the resulting date-time is valid. -/
theorem ts_roundtrip {z : Int} (h0 : 0 ≤ z + (EPOCH_SECS : Int))
    (h1 : z + (EPOCH_SECS : Int) < (SECS_MAX : Int)) :
    toTimestamp (dtFromTimestamp z) = z ∧ validDT (dtFromTimestamp z) := by
  have hn : ((z + (EPOCH_SECS : Int)).toNat : Int) = z + (EPOCH_SECS : Int) :=
    Int.toNat_of_nonneg h0
  have hlt : (z + (EPOCH_SECS : Int)).toNat < SECS_MAX := by omega
  obtain ⟨hsecs, hvalid⟩ := dtFromSecs_correct hlt
  unfold dtFromTimestamp
  refine ⟨?_, hvalid⟩
  unfold toTimestamp
  rw [hsecs]
  omega
theorem digitChar_facts : ∀ k, k < 10 →
    isDig (digitChar k) = true ∧ dval (digitChar k) = k := by decide
theorem digitChar_ne_underscore : ∀ k, ('_' == digitChar k) = false := by
  intro k
  rcases k with _ | _ | _ | _ | _ | _ | _ | _ | _ | k <;> rfl
theorem digitChar_ne_i : ∀ k, ('i' == digitChar k) = false := by
  intro k
  rcases k with _ | _ | _ | _ | _ | _ | _ | _ | _ | k <;> rfl
theorem isDig_dval_lt {c : Char} (h : isDig c = true) : dval c < 10 := by
  have hm : c ∈ ['0', '1', '2', '3', '4', '5', '6', '7', '8', '9'] := of_decide_eq_true h
  fin_cases hm <;> decide
theorem isDig_digitChar_dval {c : Char} (h : isDig c = true) : digitChar (dval c) = c := by
  have hm : c ∈ ['0', '1', '2', '3', '4', '5', '6', '7', '8', '9'] := of_decide_eq_true h
  fin_cases hm <;> decide
theorem format_data (T : DateTime) : (format_file_time T).data =
    [digitChar (T.year / 1000), digitChar (T.year / 100 % 10), digitChar (T.year / 10 % 10),
     digitChar (T.year % 10), '-', digitChar (T.month / 10), digitChar (T.month % 10), '-',
     digitChar (T.day / 10), digitChar (T.day % 10), '_', digitChar (T.hour / 10),
     digitChar (T.hour % 10), ':', digitChar (T.minute / 10), digitChar (T.minute % 10), ':',
     digitChar (T.second / 10), digitChar (T.second % 10)] := rfl
/-- `strptime` inverts `strftime` on valid date-times. -/
theorem parse_format {T : DateTime} (h : validDT T) :
    parse_file_time (format_file_time T) = some T := by
  obtain ⟨h1, h2, h3, h4, h5, h6, h7, h8, h9⟩ := h
  have hml := monthLen_le (isLeap T.year) T.month
  unfold parse_file_time
  rw [format_data]
  simp only [parseList]
  have dig : ∀ k, k < 10 → isDig (digitChar k) = true := fun k hk => (digitChar_facts k hk).1
  have dv : ∀ k, k < 10 → dval (digitChar k) = k := fun k hk => (digitChar_facts k hk).2
  rw [if_pos]
  · rw [dv _ (by omega), dv _ (by omega), dv _ (by omega), dv _ (by omega),
      dv _ (by omega), dv _ (by omega), dv _ (by omega), dv _ (by omega),
      dv _ (by omega), dv _ (by omega), dv _ (by omega), dv _ (by omega),
      dv _ (by omega), dv _ (by omega)]
    have hY : T.year / 1000 * 1000 + T.year / 100 % 10 * 100 + T.year / 10 % 10 * 10 +
        T.year % 10 = T.year := by omega
    have hM : T.month / 10 * 10 + T.month % 10 = T.month := by omega
    have hD : T.day / 10 * 10 + T.day % 10 = T.day := by omega
    have hH : T.hour / 10 * 10 + T.hour % 10 = T.hour := by omega
    have hMi : T.minute / 10 * 10 + T.minute % 10 = T.minute := by omega
    have hS : T.second / 10 * 10 + T.second % 10 = T.second := by omega
    rw [hY, hM, hD, hH, hMi, hS]
    have hEta : (⟨T.year, T.month, T.day, T.hour, T.minute, T.second⟩ : DateTime) = T := rfl
    rw [hEta, if_pos]
    exact ⟨h1, h2, h3, h4, h5, h6, h7, h8, h9⟩
  · exact ⟨trivial, trivial, trivial, trivial, trivial,
      dig _ (by omega), dig _ (by omega), dig _ (by omega), dig _ (by omega),
      dig _ (by omega), dig _ (by omega), dig _ (by omega), dig _ (by omega),
      dig _ (by omega), dig _ (by omega), dig _ (by omega), dig _ (by omega),
      dig _ (by omega), dig _ (by omega)⟩
/-- A successfully parsed string is reproduced by `strftime`, and the parsed
value is valid. -/
theorem parseList_some : ∀ (l : List Char) (T : DateTime), parseList l = some T →
    (format_file_time T).data = l ∧ validDT T := by
  intro l T h
  unfold parseList at h
  split at h
  · rename_i y1 y2 y3 y4 a1 m1 m2 a2 d1 d2 a3 h1 h2 a4 i1 i2 a5 s1 s2
    split at h
    · rename_i hc
      obtain ⟨e1, e2, e3, e4, e5, g1, g2, g3, g4, g5, g6, g7, g8, g9, g10, g11, g12, g13, g14⟩ := hc
      split at h
      · rename_i hv
        injection h with h
        subst h
        refine ⟨?_, hv⟩
        rw [format_data]
        have l1 := isDig_dval_lt g1
        have l2 := isDig_dval_lt g2
        have l3 := isDig_dval_lt g3
        have l4 := isDig_dval_lt g4
        have l5 := isDig_dval_lt g5
        have l6 := isDig_dval_lt g6
        have l7 := isDig_dval_lt g7
        have l8 := isDig_dval_lt g8
        have l9 := isDig_dval_lt g9
        have l10 := isDig_dval_lt g10
        have l11 := isDig_dval_lt g11
        have l12 := isDig_dval_lt g12
        have l13 := isDig_dval_lt g13
        have l14 := isDig_dval_lt g14
        subst e1 e2 e3 e4 e5
        have q1 : (dval y1 * 1000 + dval y2 * 100 + dval y3 * 10 + dval y4) / 1000 = dval y1 := by
          omega
        have q2 : (dval y1 * 1000 + dval y2 * 100 + dval y3 * 10 + dval y4) / 100 % 10 = dval y2 := by
          omega
        have q3 : (dval y1 * 1000 + dval y2 * 100 + dval y3 * 10 + dval y4) / 10 % 10 = dval y3 := by
          omega
        have q4 : (dval y1 * 1000 + dval y2 * 100 + dval y3 * 10 + dval y4) % 10 = dval y4 := by
          omega
        have q5 : (dval m1 * 10 + dval m2) / 10 = dval m1 := by omega
        have q6 : (dval m1 * 10 + dval m2) % 10 = dval m2 := by omega
        have q7 : (dval d1 * 10 + dval d2) / 10 = dval d1 := by omega
        have q8 : (dval d1 * 10 + dval d2) % 10 = dval d2 := by omega
        have q9 : (dval h1 * 10 + dval h2) / 10 = dval h1 := by omega
        have q10 : (dval h1 * 10 + dval h2) % 10 = dval h2 := by omega
        have q11 : (dval i1 * 10 + dval i2) / 10 = dval i1 := by omega
        have q12 : (dval i1 * 10 + dval i2) % 10 = dval i2 := by omega
        have q13 : (dval s1 * 10 + dval s2) / 10 = dval s1 := by omega
        have q14 : (dval s1 * 10 + dval s2) % 10 = dval s2 := by omega
        simp only [q1, q2, q3, q4, q5, q6, q7, q8, q9, q10, q11, q12, q13, q14]
        simp only [isDig_digitChar_dval g1, isDig_digitChar_dval g2, isDig_digitChar_dval g3,
          isDig_digitChar_dval g4, isDig_digitChar_dval g5, isDig_digitChar_dval g6,
          isDig_digitChar_dval g7, isDig_digitChar_dval g8, isDig_digitChar_dval g9,
          isDig_digitChar_dval g10, isDig_digitChar_dval g11, isDig_digitChar_dval g12,
          isDig_digitChar_dval g13, isDig_digitChar_dval g14]
      · exact absurd h (by simp)
    · exact absurd h (by simp)
  · exact absurd h (by simp)
theorem parse_valid {s : String} {T : DateTime} (h : parse_file_time s = some T) : validDT T :=
  (parseList_some s.data T h).2
theorem parse_format_inv {s : String} {T : DateTime} (h : parse_file_time s = some T) :
    format_file_time T = s := by
  have h2 := (parseList_some s.data T h).1
  calc format_file_time T = ⟨(format_file_time T).data⟩ := rfl
    _ = ⟨s.data⟩ := by rw [h2]
    _ = s := rfl
/-! ### Basic lemmas about the registry operations -/
theorem lookupTime_update_self (m : Registry) (p : String) (v : Option String) :
    lookupTime (updateTime m p v) p = v := by
  induction m with
  | nil => simp [updateTime, lookupTime, List.find?]
  | cons e rest ih =>
    unfold updateTime
    split
    · simp [lookupTime, List.find?]
    · rename_i hne
      have hne' : (e.1 == p) = false := by
        cases h : (e.1 == p) with
        | true => exact absurd h hne
        | false => rfl
      unfold lookupTime List.find?
      rw [hne']
      exact ih
theorem lookupTime_update_ne (m : Registry) {p q : String} (v : Option String) (h : q ≠ p) :
    lookupTime (updateTime m p v) q = lookupTime m q := by
  induction m with
  | nil =>
    simp only [updateTime, lookupTime, List.find?]
    have hpq : (p == q) = false := by simp [Ne.symm h]
    rw [hpq]
  | cons e rest ih =>
    unfold updateTime
    split
    · rename_i heq
      have hep : e.1 = p := by simpa using heq
      unfold lookupTime List.find?
      have h1 : (p == q) = false := by simp [Ne.symm h]
      have h2 : (e.1 == q) = false := by simp [hep, Ne.symm h]
      rw [h1, h2]
    · unfold lookupTime List.find?
      cases he : (e.1 == q) with
      | true => simp
      | false => exact ih
theorem regKeys_update (m : Registry) (p : String) (v : Option String)
    (h : p ∈ regKeys m) : regKeys (updateTime m p v) = regKeys m := by
  induction m with
  | nil => simp [regKeys] at h
  | cons e rest ih =>
    unfold updateTime
    split
    · rename_i heq
      have hep : e.1 = p := by simpa using heq
      simp [regKeys, hep]
    · rename_i hne
      have hep : e.1 ≠ p := by
        intro he
        exact hne (by simp [he])
      have h' : p ∈ regKeys rest := by
        simp only [regKeys, List.map_cons, List.mem_cons] at h
        rcases h with h | h
        · exact absurd h.symm hep
        · exact h
      have hih := ih h'
      simp only [regKeys, List.map_cons]
      simp only [regKeys] at hih
      rw [hih]
/-- Full case analysis of one loop iteration of `interpolate_photo_times`:
either the registry is unchanged, or the file's missing time was filled from
its two neighbors. -/
theorem step_cases (rand : Int → Int → Int) (m : Registry) (prevRev nexts : List String)
    (p : String) :
    interpolateStep rand m prevRev nexts p = m ∨
    (lookupTime m p = none ∧ is_valid_for_interpolation p = true ∧
      ∃ pt nt t, findNeighborTime m prevRev = some pt ∧ findNeighborTime m nexts = some nt ∧
        get_random_time_between rand (try_remove_interpolated_suffix pt) nt = some t ∧
        interpolateStep rand m prevRev nexts p =
          updateTime m p (some (t ++ INTERPOLATED_SUFFIX))) := by
  cases h1 : lookupTime m p with
  | some t =>
    left
    unfold interpolateStep
    rw [h1]
  | none =>
    cases h2 : is_valid_for_interpolation p with
    | false =>
      left
      unfold interpolateStep
      rw [h1, h2]
      rfl
    | true =>
      cases h3 : findNeighborTime m prevRev with
      | none =>
        left
        unfold interpolateStep
        rw [h1, h2, h3]
        rfl
      | some pt =>
        cases h4 : findNeighborTime m nexts with
        | none =>
          left
          unfold interpolateStep
          rw [h1, h2, h3, h4]
          rfl
        | some nt =>
          cases h5 : get_random_time_between rand (try_remove_interpolated_suffix pt) nt with
          | none =>
            left
            unfold interpolateStep
            rw [h1, h2, h3, h4]
            show (match get_random_time_between rand (try_remove_interpolated_suffix pt) nt with
              | none => m
              | some t => updateTime m p (some (t ++ INTERPOLATED_SUFFIX))) = m
            rw [h5]
          | some t =>
            right
            refine ⟨rfl, rfl, pt, nt, t, rfl, rfl, h5, ?_⟩
            unfold interpolateStep
            rw [h1, h2, h3, h4]
            show (match get_random_time_between rand (try_remove_interpolated_suffix pt) nt with
              | none => m
              | some t => updateTime m p (some (t ++ INTERPOLATED_SUFFIX))) =
              updateTime m p (some (t ++ INTERPOLATED_SUFFIX))
            rw [h5]
theorem step_invalid {p : String} (h : is_valid_for_interpolation p = false)
    (rand : Int → Int → Int) (m : Registry) (prevRev nexts : List String) :
    interpolateStep rand m prevRev nexts p = m := by
  cases h1 : lookupTime m p with
  | some t =>
    unfold interpolateStep
    rw [h1]
  | none =>
    unfold interpolateStep
    rw [h1, h]
    rfl
theorem step_lookup_other (rand : Int → Int → Int) (m : Registry)
    (prevRev nexts : List String) (p : String) {q : String} (h : q ≠ p) :
    lookupTime (interpolateStep rand m prevRev nexts p) q = lookupTime m q := by
  rcases step_cases rand m prevRev nexts p with heq | ⟨_, _, pt, nt, t, _, _, _, heq⟩
  · rw [heq]
  · rw [heq, lookupTime_update_ne _ _ h]
theorem step_preserves_some (rand : Int → Int → Int) (m : Registry)
    (prevRev nexts : List String) (p : String) {q : String} {t : String}
    (h : lookupTime m q = some t) :
    lookupTime (interpolateStep rand m prevRev nexts p) q = some t := by
  by_cases hqp : q = p
  · subst hqp
    rcases step_cases rand m prevRev nexts q with heq | ⟨hnone, _⟩
    · rw [heq, h]
    · rw [hnone] at h; cases h
  · rw [step_lookup_other rand m prevRev nexts p hqp, h]
theorem step_keys (rand : Int → Int → Int) (m : Registry) (prevRev nexts : List String)
    (p : String) (hp : p ∈ regKeys m) :
    regKeys (interpolateStep rand m prevRev nexts p) = regKeys m := by
  rcases step_cases rand m prevRev nexts p with heq | ⟨_, _, pt, nt, t, _, _, _, heq⟩
  · rw [heq]
  · rw [heq, regKeys_update _ _ _ hp]
theorem go_preserves_some (rand : Int → Int → Int) :
    ∀ (todo prevRev : List String) (m : Registry) {q t},
      lookupTime m q = some t → lookupTime (interpolateGo rand todo prevRev m) q = some t := by
  intro todo
  induction todo with
  | nil => intro _ m _ _ h; exact h
  | cons p rest ih =>
    intro prevRev m q t h
    exact ih _ _ (step_preserves_some rand m prevRev rest p h)
theorem go_lookup_notin (rand : Int → Int → Int) :
    ∀ (todo prevRev : List String) (m : Registry) {q}, q ∉ todo →
      lookupTime (interpolateGo rand todo prevRev m) q = lookupTime m q := by
  intro todo
  induction todo with
  | nil => intro _ m _ _; rfl
  | cons p rest ih =>
    intro prevRev m q h
    have hqp : q ≠ p := by
      intro he
      exact h (by simp [he])
    have hqrest : q ∉ rest := fun hc => h (by simp [hc])
    show lookupTime (interpolateGo rand rest (p :: prevRev) (interpolateStep rand m prevRev rest p)) q =
      lookupTime m q
    rw [ih _ _ hqrest, step_lookup_other rand m prevRev rest p hqp]
theorem go_keys (rand : Int → Int → Int) :
    ∀ (todo prevRev : List String) (m : Registry), (∀ k ∈ todo, k ∈ regKeys m) →
      regKeys (interpolateGo rand todo prevRev m) = regKeys m := by
  intro todo
  induction todo with
  | nil => intro _ m _; rfl
  | cons p rest ih =>
    intro prevRev m h
    have hp : p ∈ regKeys m := h p (by simp)
    have hk := step_keys rand m prevRev rest p hp
    show regKeys (interpolateGo rand rest (p :: prevRev) (interpolateStep rand m prevRev rest p)) =
      regKeys m
    rw [ih _ _ (fun k hk' => by rw [hk]; exact h k (by simp [hk'])), hk]
theorem sortKeys_mem {m : Registry} {k : String} (h : k ∈ sortKeys m) : k ∈ regKeys m := by
  unfold sortKeys at h
  exact (List.perm_insertionSort _ _).mem_iff.mp h
theorem interpolate_keys (rand : Int → Int → Int) (m : Registry) :
    regKeys (interpolate_photo_times rand m) = regKeys m := by
  unfold interpolate_photo_times
  exact go_keys rand _ _ m (fun k hk => sortKeys_mem hk)
theorem saveLoop_registry (reg : Registry) :
    ∀ todo : List (String × Option String), (saveLoop reg todo).2 = reg := by
  intro todo
  induction todo with
  | nil => rfl
  | cons e rest ih =>
    obtain ⟨p, t⟩ := e
    unfold saveLoop
    cases hd : save_dest p t with
    | none => rfl
    | some d =>
      cases hs : saveLoop reg rest with
      | mk ds reg2 =>
        have h2 : reg2 = reg := by
          have h3 := ih
          rw [hs] at h3
          exact h3
        cases ds with
        | none => exact h2
        | some ds2 => exact h2
/-! ### Suffix-tag lemmas -/
theorem format_length (T : DateTime) : (format_file_time T).data.length = 19 := rfl
theorem splitFirst_append_sep (sep : List Char) (hsep : sep ≠ []) :
    ∀ t : List Char, (∀ i, i < t.length → sep.isPrefixOf (t.drop i ++ sep) = false) →
      splitFirst? sep (t ++ sep) = some (t, []) := by
  intro t
  induction t with
  | nil =>
    intro _
    cases hse : sep with
    | nil => exact absurd hse hsep
    | cons c s' =>
      subst hse
      show splitFirst? (c :: s') ([] ++ (c :: s')) = some ([], [])
      simp only [List.nil_append]
      unfold splitFirst?
      rw [if_pos]
      · rw [List.drop_length]
      · exact List.isPrefixOf_iff_prefix.mpr (List.prefix_refl _)
  | cons c t' ih =>
    intro h
    have h0 : sep.isPrefixOf (c :: (t' ++ sep)) = false := by
      have := h 0 (by simp)
      simpa using this
    show splitFirst? sep (c :: (t' ++ sep)) = some (c :: t', [])
    unfold splitFirst?
    rw [if_neg (by simp [h0])]
    rw [ih (fun i hi => by
      have := h (i + 1) (by simp; omega)
      simpa using this)]
    rfl
theorem format_noEarly (T : DateTime) :
    ∀ i, i < (format_file_time T).data.length →
      INTERPOLATED_SUFFIX.data.isPrefixOf
        ((format_file_time T).data.drop i ++ INTERPOLATED_SUFFIX.data) = false := by
  intro i hi
  rw [format_length] at hi
  rw [format_data]
  have hsuf : INTERPOLATED_SUFFIX.data =
      ['_', 'i', 'n', 't', 'e', 'r', 'p', 'o', 'l', 'a', 't', 'e', 'd', '_',
       't', 'i', 'm', 'e'] := rfl
  rw [hsuf]
  interval_cases i <;>
    simp [List.isPrefixOf, digitChar_ne_underscore, digitChar_ne_i]
theorem detag_formatted (T : DateTime) :
    try_remove_interpolated_suffix (format_file_time T ++ INTERPOLATED_SUFFIX) =
      format_file_time T := by
  unfold try_remove_interpolated_suffix
  rw [if_pos]
  · unfold beforeFirst
    rw [String.data_append]
    rw [splitFirst_append_sep _ (by decide) _ (format_noEarly T)]
  · rw [String.data_append]
    exact List.isSuffixOf_iff_suffix.mpr (List.suffix_append _ _)
theorem parseList_none_of_length {l : List Char} (h : l.length ≠ 19) : parseList l = none := by
  unfold parseList
  split
  · exfalso
    exact h (by simp_all)
  · rfl
theorem parse_suffixed_none (s : String) (h : s.data.length = 19) :
    parse_file_time (s ++ INTERPOLATED_SUFFIX) = none := by
  unfold parse_file_time
  rw [String.data_append]
  apply parseList_none_of_length
  rw [List.length_append, h]
  decide
/-! ### Analysis of `get_random_time_between` -/
theorem grtb_some_spec {rand : Int → Int → Int} (hr : randOK rand) {a b s : String}
    (h : get_random_time_between rand a b = some s) :
    ∃ (mn mx r : Int), time_ts a = some mn ∧ time_ts b = some mx ∧
      mn + 2 ≤ r ∧ r ≤ mx - 2 ∧
      s = format_file_time (dtFromTimestamp r) ∧ validDT (dtFromTimestamp r) ∧
      time_ts s = some r := by
  unfold get_random_time_between at h
  cases ha : time_ts a with
  | none => rw [ha] at h; cases h
  | some mn =>
    cases hb : time_ts b with
    | none => rw [ha, hb] at h; cases h
    | some mx =>
      rw [ha, hb] at h
      dsimp only at h
      by_cases h1 : mx - 1 < mn + 1
      case pos => rw [if_pos h1] at h; cases h
      rw [if_neg h1] at h
      by_cases h2 : mn + 1 + 1 ≤ mx - 1 - 1
      case neg => rw [if_neg h2] at h; cases h
      rw [if_pos h2] at h
      injection h with hs
      obtain ⟨Ta, hTa, hmn⟩ := Option.map_eq_some'.mp ha
      obtain ⟨Tb, hTb, hmx⟩ := Option.map_eq_some'.mp hb
      have hva := parse_valid hTa
      have hvb := parse_valid hTb
      have hsa : toTimestamp Ta = (secsOfDT Ta : Int) - (EPOCH_SECS : Int) := rfl
      have hsb : toTimestamp Tb = (secsOfDT Tb : Int) - (EPOCH_SECS : Int) := rfl
      have hbnd : secsOfDT Tb < SECS_MAX := secsOfDT_lt_max hvb
      set r := rand (mn + 1 + 1) (mx - 1 - 1) with hrdef
      obtain ⟨hlo, hhi⟩ := hr _ _ h2
      have h0 : 0 ≤ r + (EPOCH_SECS : Int) := by
        have : (0 : Int) ≤ (secsOfDT Ta : Int) := Int.natCast_nonneg _
        omega
      have h1' : r + (EPOCH_SECS : Int) < (SECS_MAX : Int) := by
        have : (secsOfDT Tb : Int) < (SECS_MAX : Int) := by exact_mod_cast hbnd
        omega
      obtain ⟨hts, hvd⟩ := ts_roundtrip h0 h1'
      refine ⟨mn, mx, r, rfl, rfl, by omega, by omega, hs.symm, hvd, ?_⟩
      rw [← hs]
      unfold time_ts
      rw [parse_format hvd, Option.map_some', hts]
theorem grtb_none_iff (rand : Int → Int → Int) (a b : String) :
    get_random_time_between rand a b = none ↔
      time_ts a = none ∨ time_ts b = none ∨
        ∃ mn mx : Int, time_ts a = some mn ∧ time_ts b = some mx ∧ mx - 2 < mn + 2 := by
  unfold get_random_time_between
  cases ha : time_ts a with
  | none => simp
  | some mn =>
    cases hb : time_ts b with
    | none => simp
    | some mx =>
      constructor
      · intro h
        dsimp only at h
        by_cases h1 : mx - 1 < mn + 1
        case pos => exact Or.inr (Or.inr ⟨mn, mx, rfl, rfl, by omega⟩)
        rw [if_neg h1] at h
        by_cases h2 : mn + 1 + 1 ≤ mx - 1 - 1
        case pos => rw [if_pos h2] at h; cases h
        exact Or.inr (Or.inr ⟨mn, mx, rfl, rfl, by omega⟩)
      · intro h
        rcases h with h | h | ⟨mn', mx', he1, he2, hlt⟩
        · cases h
        · cases h
        · injection he1 with he1
          injection he2 with he2
          subst he1; subst he2
          dsimp only
          by_cases h1 : mx - 1 < mn + 1
          · rw [if_pos h1]
          · rw [if_neg h1, if_neg (show ¬(mn + 1 + 1 ≤ mx - 1 - 1) by omega)]
theorem grtb_none_rand_indep {rand rand' : Int → Int → Int} {a b : String}
    (h : get_random_time_between rand a b = none) :
    get_random_time_between rand' a b = none :=
  (grtb_none_iff rand' a b).mpr ((grtb_none_iff rand a b).mp h)
/-! ### Helper lemmas for the claims -/
theorem step_fill_eq {rand : Int → Int → Int} {m : Registry} {prevRev nexts : List String}
    {p pt nt : String}
    (hnone : lookupTime m p = none) (hval : is_valid_for_interpolation p = true)
    (hpt : findNeighborTime m prevRev = some pt)
    (hnt : findNeighborTime m nexts = some nt) :
    interpolateStep rand m prevRev nexts p =
      match get_random_time_between rand (try_remove_interpolated_suffix pt) nt with
      | none => m
      | some t => updateTime m p (some (t ++ INTERPOLATED_SUFFIX)) := by
  unfold interpolateStep
  rw [hnone, hval, hpt, hnt]
  rfl
theorem go_invalid (rand : Int → Int → Int) {p : String}
    (h : is_valid_for_interpolation p = false) :
    ∀ (todo prevRev : List String) (m : Registry),
      lookupTime (interpolateGo rand todo prevRev m) p = lookupTime m p := by
  intro todo
  induction todo with
  | nil => intro _ _; rfl
  | cons k rest ih =>
    intro prevRev m
    show lookupTime (interpolateGo rand rest (k :: prevRev)
      (interpolateStep rand m prevRev rest k)) p = lookupTime m p
    rw [ih _ _]
    by_cases hkp : p = k
    · subst hkp
      rw [step_invalid h]
    · rw [step_lookup_other rand m prevRev rest k hkp]
theorem splitFirst_decomp (sep : List Char) : ∀ (l : List Char) (q : List Char × List Char),
    splitFirst? sep l = some q → l = q.1 ++ sep ++ q.2 := by
  intro l
  induction l with
  | nil => intro q h; cases h
  | cons c rest ih =>
    intro q h
    unfold splitFirst? at h
    split at h
    · rename_i hpre
      injection h with h
      subst h
      obtain ⟨u, hu⟩ := List.isPrefixOf_iff_prefix.mp hpre
      dsimp only
      rw [← hu, List.nil_append, List.drop_left]
    · cases hr : splitFirst? sep rest with
      | none => rw [hr] at h; cases h
      | some q' =>
        rw [hr] at h
        injection h with h
        subst h
        have hrec := ih q' hr
        dsimp only
        rw [List.cons_append, List.cons_append]
        rw [← hrec]
/-! ### Claims -/
/-- C2: for every successful interpolation of a file with nearest eligible
bounding neighbor times `pt` (de-tagged before use) and `nt`, and for every
value the random source may return, the stored time de-tags to a string
whose Unix timestamp `ts` satisfies `pts + 2 ≤ ts ≤ nts - 2`, where `pts`
and `nts` are obtained by parsing the de-tagged previous neighbor and the
next neighbor in the canonical format. -/
theorem claim_C2 {rand : Int → Int → Int} (hr : randOK rand) {m : Registry}
    {prevRev nexts : List String} {p v : String}
    (hnone : lookupTime m p = none)
    (hfill : lookupTime (interpolateStep rand m prevRev nexts p) p = some v) :
    ∃ (pt nt : String) (pts nts ts : Int),
      findNeighborTime m prevRev = some pt ∧ findNeighborTime m nexts = some nt ∧
      time_ts (try_remove_interpolated_suffix pt) = some pts ∧
      time_ts nt = some nts ∧
      time_ts (try_remove_interpolated_suffix v) = some ts ∧
      pts + 2 ≤ ts ∧ ts ≤ nts - 2 := by
  rcases step_cases rand m prevRev nexts p with heq | ⟨_, _, pt, nt, t, hpt, hnt, hgr, heq⟩
  · rw [heq, hnone] at hfill
    cases hfill
  · rw [heq, lookupTime_update_self] at hfill
    injection hfill with hv
    obtain ⟨mn, mx, r, hmn, hmx, hl, hh, hs, hvd, hts⟩ := grtb_some_spec hr hgr
    refine ⟨pt, nt, mn, mx, r, hpt, hnt, hmn, hmx, ?_, hl, hh⟩
    rw [← hv, hs, detag_formatted, ← hs]
    exact hts
/-- C2 witness: a concrete successful interpolation between 10:00:00 and
10:00:10 whose synthesized timestamp lies in the margin interval. -/
theorem claim_C2_witness :
    ∃ (pt nt : String) (pts nts ts : Int),
      findNeighborTime exReg1 ["IMG_1.jpg"] = some pt ∧
      findNeighborTime exReg1 ["IMG_3.jpg"] = some nt ∧
      time_ts (try_remove_interpolated_suffix pt) = some pts ∧
      time_ts nt = some nts ∧
      time_ts (try_remove_interpolated_suffix
        "2021-01-01_10:00:02_interpolated_time") = some ts ∧
      pts + 2 ≤ ts ∧ ts ≤ nts - 2 :=
  @claim_C2 exRand (fun lo hi h => ⟨le_refl lo, h⟩) exReg1 ["IMG_1.jpg"] ["IMG_3.jpg"]
    "IMG_2.jpg" "2021-01-01_10:00:02_interpolated_time" (by decide) (by decide)
/-- C3 counterexample: with prev time 10:00:00 and next time 10:00:02 we have
`nextTs - 1 ≥ prevTs + 1`, so the claim says a synthesized time is stored;
but the code's `random.randint(prevTs + 2, nextTs - 2)` range is empty, the
`ValueError` is caught, and the file's time stays absent. -/
theorem claim_C3_counterexample :
    time_ts "2021-01-01_10:00:00" = some 1609495200 ∧
    time_ts "2021-01-01_10:00:02" = some 1609495202 ∧
    ¬((1609495202 : Int) - 1 < 1609495200 + 1) ∧
    lookupTime exReg2 "IMG_2.jpg" = none ∧
    is_valid_for_interpolation "IMG_2.jpg" = true ∧
    lookupTime (interpolate_photo_times exRand exReg2) "IMG_2.jpg" = none := by
  decide
/-- C3 (amended): for a timeless eligible file with both neighbor times
found and parseable, the loop body leaves the time absent exactly when the
candidate pool `[prevTs + 2, nextTs - 2]` is empty, i.e. when
`nextTs - 2 < prevTs + 2`; otherwise a synthesized time is stored. -/
theorem claim_C3_amended {rand : Int → Int → Int} {m : Registry}
    {prevRev nexts : List String} {p pt nt : String} {pts nts : Int}
    (hnone : lookupTime m p = none) (hval : is_valid_for_interpolation p = true)
    (hpt : findNeighborTime m prevRev = some pt)
    (hnt : findNeighborTime m nexts = some nt)
    (hpts : time_ts (try_remove_interpolated_suffix pt) = some pts)
    (hnts : time_ts nt = some nts) :
    (lookupTime (interpolateStep rand m prevRev nexts p) p = none ↔ nts - 2 < pts + 2) := by
  have hstep := @step_fill_eq rand m prevRev nexts p pt nt hnone hval hpt hnt
  cases hg : get_random_time_between rand (try_remove_interpolated_suffix pt) nt with
  | none =>
    have hrhs : nts - 2 < pts + 2 := by
      rcases (grtb_none_iff rand _ _).mp hg with h | h | ⟨mn, mx, e1, e2, hlt⟩
      · rw [hpts] at h; cases h
      · rw [hnts] at h; cases h
      · rw [hpts] at e1
        rw [hnts] at e2
        injection e1 with e1
        injection e2 with e2
        omega
    rw [hstep, hg]
    simp [hnone, hrhs]
  | some t =>
    have hfail : ¬(nts - 2 < pts + 2) := by
      intro hc
      have hn : get_random_time_between rand (try_remove_interpolated_suffix pt) nt = none :=
        (grtb_none_iff rand _ _).mpr (Or.inr (Or.inr ⟨pts, nts, hpts, hnts, by omega⟩))
      rw [hg] at hn
      cases hn
    rw [hstep, hg]
    simp [lookupTime_update_self, hfail]
/-- C3 amended witness: a concrete 10-second gap where the pool is non-empty
and a time is stored. -/
theorem claim_C3_amended_witness :
    lookupTime (interpolateStep exRand exReg1 ["IMG_1.jpg"] ["IMG_3.jpg"] "IMG_2.jpg")
      "IMG_2.jpg" = none ↔ (1609495210 : Int) - 2 < 1609495200 + 2 :=
  @claim_C3_amended exRand exReg1 ["IMG_1.jpg"] ["IMG_3.jpg"] "IMG_2.jpg"
    "2021-01-01_10:00:00" "2021-01-01_10:00:10" 1609495200 1609495210
    (by decide) (by decide) (by decide) (by decide) (by decide) (by decide)
/-- C4 counterexample: `XIMG_123.jpg` does not begin with `IMG_`, yet the
eligibility test returns `True`, because `stem.split('IMG_')[1]` only needs
an occurrence of `IMG_` somewhere in the stem. -/
theorem claim_C4_counterexample :
    is_valid_for_interpolation "XIMG_123.jpg" = true ∧
    COMMON_INTERPOLATION_MARKER.data.isPrefixOf (pathStem "XIMG_123.jpg").data = false := by
  decide
/-- C4 (amended): a file is eligible for interpolation only if its stem
CONTAINS the literal `IMG_` somewhere (and the segment between the first
occurrence and the next `.`/`IMG_` boundary parses as a Python integer); in
particular, for every path whose stem does not contain `IMG_` at all the
test returns false, but the marker need not be at the start of the stem. -/
theorem claim_C4_amended {p : String} (h : is_valid_for_interpolation p = true) :
    ∃ a b : List Char, (pathStem p).data = a ++ COMMON_INTERPOLATION_MARKER.data ++ b := by
  unfold is_valid_for_interpolation at h
  cases hs : pySplitSecond? COMMON_INTERPOLATION_MARKER.data (pathStem p).data with
  | none => rw [hs] at h; cases h
  | some seg =>
    unfold pySplitSecond? at hs
    cases hsf : splitFirst? COMMON_INTERPOLATION_MARKER.data (pathStem p).data with
    | none => rw [hsf] at hs; cases hs
    | some q =>
      exact ⟨q.1, q.2, splitFirst_decomp _ _ _ hsf⟩
/-- C4 amended witness: the canonical eligible name `IMG_5.jpg` indeed
contains the marker. -/
theorem claim_C4_amended_witness :
    ∃ a b : List Char, (pathStem "IMG_5.jpg").data =
      a ++ COMMON_INTERPOLATION_MARKER.data ++ b :=
  claim_C4_amended (p := "IMG_5.jpg") (by decide)
/-- C6: a file that fails the eligibility filter keeps exactly the time it
had before the interpolation pass (in particular a timeless ineligible file
is never assigned an interpolated time). -/
theorem claim_C6 (rand : Int → Int → Int) (m : Registry) (p : String)
    (h : is_valid_for_interpolation p = false) :
    lookupTime (interpolate_photo_times rand m) p = lookupTime m p := by
  unfold interpolate_photo_times
  exact go_invalid rand h _ _ m
/-- C6 witness: `holiday.jpg` is surrounded by eligible known-time neighbors
yet stays timeless. -/
theorem claim_C6_witness :
    lookupTime (interpolate_photo_times exRand exReg3) "holiday.jpg" =
      lookupTime exReg3 "holiday.jpg" :=
  claim_C6 exRand exReg3 "holiday.jpg" (by decide)
/-- C8: interpolation preserves the key set and every already-present entry
(it only fills absent times), and output placement leaves the registry
unchanged. -/
theorem claim_C8 (rand : Int → Int → Int) (m : Registry) :
    regKeys (interpolate_photo_times rand m) = regKeys m ∧
    (∀ q t, lookupTime m q = some t →
      lookupTime (interpolate_photo_times rand m) q = some t) ∧
    (save_photos_with_times m).2 = m := by
  refine ⟨interpolate_keys rand m, ?_, saveLoop_registry m m⟩
  intro q t h
  exact go_preserves_some rand _ _ m h
/-- C8 witness: a present entry survives a concrete interpolation pass. -/
theorem claim_C8_witness :
    lookupTime (interpolate_photo_times exRand exReg1) "IMG_1.jpg" =
      some "2021-01-01_10:00:00" :=
  (claim_C8 exRand exReg1).2.1 "IMG_1.jpg" "2021-01-01_10:00:00" (by decide)
/-- C9: the canonical format `YYYY-MM-DD_HH:MM:SS` round-trips losslessly:
parsing the formatted string of any valid date-time gives the value back,
and formatting a successfully parsed string reproduces the string. -/
theorem claim_C9 :
    (∀ T : DateTime, validDT T → parse_file_time (format_file_time T) = some T) ∧
    (∀ (s : String) (T : DateTime), parse_file_time s = some T → format_file_time T = s) :=
  ⟨fun _ h => parse_format h, fun _ _ h => parse_format_inv h⟩
/-- C9 witness: a concrete round trip in both directions. -/
theorem claim_C9_witness :
    parse_file_time (format_file_time ⟨2021, 6, 1, 10, 0, 0⟩) = some ⟨2021, 6, 1, 10, 0, 0⟩ ∧
    format_file_time ⟨2021, 6, 1, 10, 0, 0⟩ = "2021-06-01_10:00:00" :=
  ⟨claim_C9.1 ⟨2021, 6, 1, 10, 0, 0⟩ (by decide),
   claim_C9.2 "2021-06-01_10:00:00" ⟨2021, 6, 1, 10, 0, 0⟩ (by decide)⟩
/-- C1 counterexample: an interpolated entry's output filename keeps the
`_interpolated_time` marker: the de-tagged name would be
`2021-01-01_10:00:05.jpg`, but `save_photos_with_times` uses the stored
string for the name and de-tags only for the year bucket. -/
theorem claim_C1_counterexample :
    save_dest "IMG_1.jpg" (some "2021-01-01_10:00:05_interpolated_time") =
      some ⟨true, some 2021, "2021-01-01_10:00:05_interpolated_time.jpg"⟩ ∧
    try_remove_interpolated_suffix "2021-01-01_10:00:05_interpolated_time" ++ "." ++
      get_extension_from_path "IMG_1.jpg" = "2021-01-01_10:00:05.jpg" ∧
    "2021-01-01_10:00:05_interpolated_time.jpg" ≠ "2021-01-01_10:00:05.jpg" ∧
    (splitFirst? INTERPOLATED_SUFFIX.data
      "2021-01-01_10:00:05_interpolated_time.jpg".data).isSome = true := by
  decide
/-- C1 (amended): for every entry with a present time, the destination is
the "with time" tree, the year bucket comes from the DE-TAGGED string, and
the file name is the STORED string (tag included for interpolated entries)
plus `.` plus the extension. -/
theorem claim_C1_amended {p time : String} {d : Dest}
    (h : save_dest p (some time) = some d) :
    ∃ y, get_year_from_time (try_remove_interpolated_suffix time) = some y ∧
      d = ⟨true, some y, time ++ "." ++ get_extension_from_path p⟩ := by
  unfold save_dest at h
  dsimp only at h
  cases hy : get_year_from_time (try_remove_interpolated_suffix time) with
  | none =>
    rw [hy] at h
    cases h
  | some y =>
    rw [hy] at h
    injection h with h
    exact ⟨y, rfl, h.symm⟩
/-- C1 amended witness: the concrete interpolated entry above. -/
theorem claim_C1_amended_witness :
    ∃ y, get_year_from_time
        (try_remove_interpolated_suffix "2021-01-01_10:00:05_interpolated_time") = some y ∧
      (⟨true, some 2021, "2021-01-01_10:00:05_interpolated_time.jpg"⟩ : Dest) =
        ⟨true, some y, "2021-01-01_10:00:05_interpolated_time" ++ "." ++
          get_extension_from_path "IMG_1.jpg"⟩ :=
  @claim_C1_amended "IMG_1.jpg" "2021-01-01_10:00:05_interpolated_time"
    ⟨true, some 2021, "2021-01-01_10:00:05_interpolated_time.jpg"⟩ (by decide)
theorem photo_video_ext_disjoint {s : String}
    (h1 : s ∈ PHOTO_EXTENSIONS) (h2 : s ∈ VIDEO_EXTENSIONS) : False := by
  fin_cases h1 <;> exact absurd h2 (by decide)
theorem parse_photos_mem (photoExif videoProbe : String → Option String) :
    ∀ files : List String,
      (∀ qv ∈ files, get_extension_from_path qv ∈ VIDEO_EXTENSIONS → videoProbe qv ≠ none) →
      ∃ l, parse_photo_times photoExif videoProbe files = some l ∧
        ∀ p ∈ files, get_extension_from_path p ∈ PHOTO_EXTENSIONS →
          (p, (photoExif p).map normalize_photo_time) ∈ l := by
  intro files
  induction files with
  | nil => exact fun _ => ⟨[], rfl, by simp⟩
  | cons f rest ih =>
    intro hv
    obtain ⟨l, hl, hmem⟩ := ih (fun qv hq => hv qv (by simp [hq]))
    by_cases hph : get_extension_from_path f ∈ PHOTO_EXTENSIONS
    · refine ⟨(f, (photoExif f).map normalize_photo_time) :: l, ?_, ?_⟩
      · unfold parse_photo_times
        rw [if_pos hph, hl]
        rfl
      · intro p hp hpe
        rcases List.mem_cons.mp hp with rfl | hp'
        · exact List.mem_cons_self _ _
        · exact List.mem_cons_of_mem _ (hmem p hp' hpe)
    · by_cases hvd : get_extension_from_path f ∈ VIDEO_EXTENSIONS
      · have hnf : videoProbe f ≠ none := hv f (by simp) hvd
        cases hvp : videoProbe f with
        | none => exact absurd hvp hnf
        | some raw =>
          refine ⟨(f, some (normalize_video_time ⟨raw.data.take 19⟩)) :: l, ?_, ?_⟩
          · unfold parse_photo_times
            rw [if_neg hph, if_pos hvd]
            unfold get_video_creation_time
            rw [hvp, Option.map_some', hl]
            rfl
          · intro p hp hpe
            rcases List.mem_cons.mp hp with rfl | hp'
            · exact absurd hpe hph
            · exact List.mem_cons_of_mem _ (hmem p hp' hpe)
      · refine ⟨l, ?_, ?_⟩
        · unfold parse_photo_times
          rw [if_neg hph, if_neg hvd]
          exact hl
        · intro p hp hpe
          rcases List.mem_cons.mp hp with rfl | hp'
          · exact absurd hpe hph
          · exact hmem p hp' hpe
theorem parse_video_fail (photoExif videoProbe : String → Option String) :
    ∀ (files : List String) (p : String), p ∈ files →
      get_extension_from_path p ∈ VIDEO_EXTENSIONS → videoProbe p = none →
      parse_photo_times photoExif videoProbe files = none := by
  intro files
  induction files with
  | nil => intro p hp; cases hp
  | cons f rest ih =>
    intro p hp hvd hnone
    rcases List.mem_cons.mp hp with rfl | hp'
    · have hph : get_extension_from_path p ∉ PHOTO_EXTENSIONS :=
        fun hc => photo_video_ext_disjoint hc hvd
      unfold parse_photo_times
      rw [if_neg hph, if_pos hvd]
      unfold get_video_creation_time
      rw [hnone]
      rfl
    · have hrest := ih p hp' hvd hnone
      unfold parse_photo_times
      by_cases hph : get_extension_from_path f ∈ PHOTO_EXTENSIONS
      · rw [if_pos hph, hrest]
        rfl
      · by_cases hfd : get_extension_from_path f ∈ VIDEO_EXTENSIONS
        · rw [if_neg hph, if_pos hfd]
          cases hvp : videoProbe f with
          | none =>
            unfold get_video_creation_time
            rw [hvp]
            rfl
          | some raw =>
            unfold get_video_creation_time
            rw [hvp, Option.map_some', hrest]
            rfl
        · rw [if_neg hph, if_neg hfd]
          exact hrest
/-- C5: a photo whose metadata extraction fails with the caught
`KeyError`/`TypeError` is registered with absent time and the run continues
(provided no video fails); a video whose metadata extraction fails aborts
the whole run. -/
theorem claim_C5 (photoExif videoProbe : String → Option String) (files : List String) :
    ((∀ qv ∈ files, get_extension_from_path qv ∈ VIDEO_EXTENSIONS → videoProbe qv ≠ none) →
      ∀ p ∈ files, get_extension_from_path p ∈ PHOTO_EXTENSIONS → photoExif p = none →
        ∃ l, parse_photo_times photoExif videoProbe files = some l ∧ (p, none) ∈ l) ∧
    (∀ p ∈ files, get_extension_from_path p ∈ VIDEO_EXTENSIONS → videoProbe p = none →
      parse_photo_times photoExif videoProbe files = none) := by
  constructor
  · intro hv p hp hpe hnone
    obtain ⟨l, hl, hmem⟩ := parse_photos_mem photoExif videoProbe files hv
    refine ⟨l, hl, ?_⟩
    have := hmem p hp hpe
    rw [hnone] at this
    exact this
  · intro p hp hvd hnone
    exact parse_video_fail photoExif videoProbe files p hp hvd hnone
/-- C5 witness: a photo directory `[a.jpg]` with failing EXIF still parses,
registering `a.jpg` with no time; a video directory `[b.mov]` with failing
probe aborts. -/
theorem claim_C5_witness :
    (∃ l, parse_photo_times exBrokenMeta exBrokenMeta ["a.jpg"] = some l ∧
      ("a.jpg", none) ∈ l) ∧
    parse_photo_times exBrokenMeta exBrokenMeta ["b.mov"] = none :=
  ⟨(claim_C5 exBrokenMeta exBrokenMeta ["a.jpg"]).1 (by decide) "a.jpg" (by decide)
      (by decide) rfl,
   (claim_C5 exBrokenMeta exBrokenMeta ["b.mov"]).2 "b.mov" (by decide) (by decide) rfl⟩
/-! ### Idempotence of the interpolation pass -/
theorem step_some {m : Registry} {p t : String} (h : lookupTime m p = some t)
    (rand : Int → Int → Int) (prevRev nexts : List String) :
    interpolateStep rand m prevRev nexts p = m := by
  unfold interpolateStep
  rw [h]
theorem step_noprev {m : Registry} {p : String} {prevRev nexts : List String}
    (h1 : lookupTime m p = none) (h2 : is_valid_for_interpolation p = true)
    (h3 : findNeighborTime m prevRev = none) (rand : Int → Int → Int) :
    interpolateStep rand m prevRev nexts p = m := by
  unfold interpolateStep
  rw [h1, h2, h3]
  rfl
theorem step_nonext {m : Registry} {p : String} {prevRev nexts : List String}
    (h1 : lookupTime m p = none) (h2 : is_valid_for_interpolation p = true)
    (h3 : findNeighborTime m nexts = none) (rand : Int → Int → Int) :
    interpolateStep rand m prevRev nexts p = m := by
  cases hp : findNeighborTime m prevRev with
  | none => exact step_noprev h1 h2 hp rand
  | some pt =>
    unfold interpolateStep
    rw [h1, h2, hp, h3]
    rfl
theorem find_none_forall {m : Registry} :
    ∀ scan : List String, findNeighborTime m scan = none →
      ∀ k ∈ scan, is_valid_for_interpolation k = true → lookupTime m k = none := by
  intro scan
  induction scan with
  | nil => intro _ k hk; cases hk
  | cons k rest ih =>
    intro h q hq hv
    unfold findNeighborTime at h
    by_cases hvk : is_valid_for_interpolation k = true
    · rw [if_pos hvk] at h
      cases hlk : lookupTime m k with
      | some t =>
        rw [hlk] at h
        cases h
      | none =>
        rw [hlk] at h
        have h' : findNeighborTime m rest = none := h
        rcases List.mem_cons.mp hq with rfl | hq'
        · exact hlk
        · exact ih h' q hq' hv
    · rw [if_neg hvk] at h
      rcases List.mem_cons.mp hq with rfl | hq'
      · exact absurd hv hvk
      · exact ih h q hq' hv
theorem find_forall_none {m : Registry} :
    ∀ scan : List String,
      (∀ k ∈ scan, is_valid_for_interpolation k = true → lookupTime m k = none) →
      findNeighborTime m scan = none := by
  intro scan
  induction scan with
  | nil => intro _; rfl
  | cons k rest ih =>
    intro h
    unfold findNeighborTime
    by_cases hvk : is_valid_for_interpolation k = true
    · rw [if_pos hvk]
      rw [h k (by simp) hvk]
      exact ih (fun q hq hv => h q (by simp [hq]) hv)
    · rw [if_neg hvk]
      exact ih (fun q hq hv => h q (by simp [hq]) hv)
theorem find_congr {m1 m2 : Registry} :
    ∀ scan : List String, (∀ k ∈ scan, lookupTime m1 k = lookupTime m2 k) →
      findNeighborTime m1 scan = findNeighborTime m2 scan := by
  intro scan
  induction scan with
  | nil => intro _; rfl
  | cons k rest ih =>
    intro h
    unfold findNeighborTime
    by_cases hvk : is_valid_for_interpolation k = true
    · rw [if_pos hvk, if_pos hvk, h k (by simp)]
      cases hlk : lookupTime m2 k with
      | some t => rfl
      | none => exact ih (fun q hq => h q (by simp [hq]))
    · rw [if_neg hvk, if_neg hvk]
      exact ih (fun q hq => h q (by simp [hq]))
theorem go_all_none (rand : Int → Int → Int) :
    ∀ (todo prevRev : List String) (m : Registry),
      (∀ k ∈ todo, is_valid_for_interpolation k = true → lookupTime m k = none) →
      interpolateGo rand todo prevRev m = m := by
  intro todo
  induction todo with
  | nil => intro _ _ _; rfl
  | cons k rest ih =>
    intro prevRev m h
    have hstepeq : interpolateStep rand m prevRev rest k = m := by
      cases hlk : lookupTime m k with
      | some t => exact step_some hlk rand prevRev rest
      | none =>
        cases hvk : is_valid_for_interpolation k with
        | false => exact step_invalid hvk rand m prevRev rest
        | true =>
          have hnn : findNeighborTime m rest = none :=
            find_forall_none rest (fun q hq hv => h q (by simp [hq]) hv)
          exact step_nonext hlk hvk hnn rand
    show interpolateGo rand rest (k :: prevRev) (interpolateStep rand m prevRev rest k) = m
    rw [hstepeq]
    exact ih (k :: prevRev) m (fun q hq hv => h q (by simp [hq]) hv)
theorem grtb_some_shape {rand : Int → Int → Int} {a b s : String}
    (h : get_random_time_between rand a b = some s) :
    ∃ z : Int, s = format_file_time (dtFromTimestamp z) := by
  unfold get_random_time_between at h
  cases ha : time_ts a with
  | none => rw [ha] at h; cases h
  | some mn =>
    cases hb : time_ts b with
    | none => rw [ha, hb] at h; cases h
    | some mx =>
      rw [ha, hb] at h
      dsimp only at h
      by_cases h1 : mx - 1 < mn + 1
      · rw [if_pos h1] at h; cases h
      · rw [if_neg h1] at h
        by_cases h2 : mn + 1 + 1 ≤ mx - 1 - 1
        · rw [if_pos h2] at h
          injection h with h
          exact ⟨_, h.symm⟩
        · rw [if_neg h2] at h; cases h
theorem step_shape {rand : Int → Int → Int} {m : Registry} {prevRev nexts : List String}
    {p q v : String} (h : lookupTime (interpolateStep rand m prevRev nexts p) q = some v) :
    lookupTime m q = some v ∨
      ∃ z : Int, v = format_file_time (dtFromTimestamp z) ++ INTERPOLATED_SUFFIX := by
  rcases step_cases rand m prevRev nexts p with heq | ⟨_, _, pt, nt, t, _, _, hgr, heq⟩
  · rw [heq] at h
    exact Or.inl h
  · rw [heq] at h
    by_cases hqp : q = p
    · subst hqp
      rw [lookupTime_update_self] at h
      injection h with h
      obtain ⟨z, hz⟩ := grtb_some_shape hgr
      exact Or.inr ⟨z, by rw [← h, hz]⟩
    · rw [lookupTime_update_ne _ _ hqp] at h
      exact Or.inl h
theorem go_shape (rand : Int → Int → Int) :
    ∀ (todo prevRev : List String) (m : Registry) {q v : String},
      lookupTime (interpolateGo rand todo prevRev m) q = some v →
      lookupTime m q = some v ∨
        ∃ z : Int, v = format_file_time (dtFromTimestamp z) ++ INTERPOLATED_SUFFIX := by
  intro todo
  induction todo with
  | nil => intro _ _ _ _ h; exact Or.inl h
  | cons p rest ih =>
    intro prevRev m q v h
    have h' := ih (p :: prevRev) (interpolateStep rand m prevRev rest p) h
    rcases h' with h' | h'
    · exact step_shape h'
    · exact Or.inr h'
theorem find_grow {m m' : Registry}
    (hgrow : ∀ q t, lookupTime m q = some t → lookupTime m' q = some t)
    (hshape : ∀ q v, lookupTime m' q = some v → lookupTime m q = some v ∨
      ∃ z : Int, v = format_file_time (dtFromTimestamp z) ++ INTERPOLATED_SUFFIX) :
    ∀ (scan : List String) (nt : String), findNeighborTime m scan = some nt →
      ∃ nt', findNeighborTime m' scan = some nt' ∧
        (nt' = nt ∨ ∃ z : Int, nt' = format_file_time (dtFromTimestamp z) ++
          INTERPOLATED_SUFFIX) := by
  intro scan
  induction scan with
  | nil => intro nt h; cases h
  | cons k rest ih =>
    intro nt h
    unfold findNeighborTime at h ⊢
    by_cases hvk : is_valid_for_interpolation k = true
    · rw [if_pos hvk] at h ⊢
      cases hlk : lookupTime m k with
      | some t =>
        rw [hlk] at h
        have h' : some t = some nt := h
        injection h' with h'
        subst h'
        rw [hgrow k _ hlk]
        exact ⟨t, rfl, Or.inl rfl⟩
      | none =>
        rw [hlk] at h
        have h' : findNeighborTime m rest = some nt := h
        cases hlk' : lookupTime m' k with
        | none =>
          obtain ⟨nt', h1, h2⟩ := ih nt h'
          exact ⟨nt', h1, h2⟩
        | some v =>
          rcases hshape k v hlk' with hc | hsh
          · rw [hlk] at hc
            cases hc
          · exact ⟨v, rfl, Or.inr hsh⟩
    · rw [if_neg hvk] at h ⊢
      exact ih nt h
theorem go_idem (rand1 rand2 : Int → Int → Int) :
    ∀ (todo prevRev : List String) (m : Registry), (prevRev ++ todo).Nodup →
      interpolateGo rand2 todo prevRev (interpolateGo rand1 todo prevRev m) =
        interpolateGo rand1 todo prevRev m := by
  intro todo
  induction todo with
  | nil => intro _ _ _; rfl
  | cons p rest ih =>
    intro prevRev m hnd
    obtain ⟨hndpr, hndpr2, hdisj⟩ := List.nodup_append.mp hnd
    have hpnotin : p ∉ rest := (List.nodup_cons.mp hndpr2).1
    show interpolateGo rand2 rest (p :: prevRev)
        (interpolateStep rand2
          (interpolateGo rand1 rest (p :: prevRev) (interpolateStep rand1 m prevRev rest p))
          prevRev rest p) =
      interpolateGo rand1 rest (p :: prevRev) (interpolateStep rand1 m prevRev rest p)
    set s := interpolateStep rand1 m prevRev rest p with hs
    set final := interpolateGo rand1 rest (p :: prevRev) s with hfinal
    have hstep2 : interpolateStep rand2 final prevRev rest p = final := by
      cases hfp : lookupTime final p with
      | some t => exact step_some hfp rand2 prevRev rest
      | none =>
        have h1 := go_lookup_notin rand1 rest (p :: prevRev) s (q := p) hpnotin
        rw [← hfinal] at h1
        have hsp : lookupTime s p = none := by rw [← h1]; exact hfp
        have hsm : s = m := by
          rcases step_cases rand1 m prevRev rest p with heq | ⟨_, _, pt, nt, t, _, _, _, heq⟩
          · rw [hs]; exact heq
          · exfalso
            rw [hs, heq, lookupTime_update_self] at hsp
            cases hsp
        have hmp : lookupTime m p = none := by rw [← hsm]; exact hsp
        cases hval : is_valid_for_interpolation p with
        | false => exact step_invalid hval rand2 final prevRev rest
        | true =>
          have hprc : ∀ k ∈ prevRev, lookupTime final k = lookupTime m k := by
            intro k hk
            have hknr : k ∉ rest := fun hc => hdisj hk (by simp [hc])
            have h2 := go_lookup_notin rand1 rest (p :: prevRev) s (q := k) hknr
            rw [← hfinal] at h2
            rw [h2, hsm]
          have hfp_prev : findNeighborTime final prevRev = findNeighborTime m prevRev :=
            find_congr prevRev hprc
          cases hprev : findNeighborTime m prevRev with
          | none =>
            exact step_noprev hfp hval (by rw [hfp_prev]; exact hprev) rand2
          | some pt =>
            cases hnext : findNeighborTime m rest with
            | none =>
              have hallnone := find_none_forall rest hnext
              have hfinal_m : final = m := by
                rw [hfinal, hsm]
                exact go_all_none rand1 rest (p :: prevRev) m hallnone
              have hfn : findNeighborTime final rest = none := by
                rw [hfinal_m]; exact hnext
              exact step_nonext hfp hval hfn rand2
            | some nt =>
              have hfail1 : get_random_time_between rand1
                  (try_remove_interpolated_suffix pt) nt = none := by
                cases hg : get_random_time_between rand1
                    (try_remove_interpolated_suffix pt) nt with
                | none => rfl
                | some t =>
                  exfalso
                  have hfe := @step_fill_eq rand1 m prevRev rest p pt nt hmp hval hprev hnext
                  have hseq : s = updateTime m p (some (t ++ INTERPOLATED_SUFFIX)) := by
                    rw [hs, hfe, hg]
                  rw [hseq, lookupTime_update_self] at hsp
                  cases hsp
              have hfinal_go : final = interpolateGo rand1 rest (p :: prevRev) m := by
                rw [hfinal, hsm]
              have hgrow : ∀ q t, lookupTime m q = some t → lookupTime final q = some t := by
                intro q t h
                rw [hfinal_go]
                exact go_preserves_some rand1 rest (p :: prevRev) m h
              have hshape : ∀ q v, lookupTime final q = some v →
                  lookupTime m q = some v ∨
                  ∃ z : Int, v = format_file_time (dtFromTimestamp z) ++
                    INTERPOLATED_SUFFIX := by
                intro q v h
                rw [hfinal_go] at h
                exact go_shape rand1 rest (p :: prevRev) m h
              obtain ⟨nt', hfind', hnt'⟩ := find_grow hgrow hshape rest nt hnext
              have hfail2 : get_random_time_between rand2
                  (try_remove_interpolated_suffix pt) nt' = none := by
                rcases hnt' with rfl | ⟨z, rfl⟩
                · exact grtb_none_rand_indep hfail1
                · apply (grtb_none_iff rand2 _ _).mpr
                  refine Or.inr (Or.inl ?_)
                  unfold time_ts
                  rw [parse_suffixed_none _ (format_length _)]
                  rfl
              have hpf : findNeighborTime final prevRev = some pt := by
                rw [hfp_prev]; exact hprev
              have hfe2 := @step_fill_eq rand2 final prevRev rest p pt nt' hfp hval hpf hfind'
              rw [hfe2, hfail2]
    rw [hstep2]
    have hnd' : ((p :: prevRev) ++ rest).Nodup := by
      have hperm : (prevRev ++ p :: rest).Perm (p :: (prevRev ++ rest)) := List.perm_middle
      have := hperm.nodup hnd
      simpa using this
    exact ih (p :: prevRev) s hnd'
/-- C7: the interpolation pass is idempotent: for every registry (with the
dict invariant of distinct keys) and any behaviours of the random source,
running the pass again on an already-interpolated registry changes
nothing. -/
theorem claim_C7 (rand1 rand2 : Int → Int → Int) (m : Registry)
    (h : (regKeys m).Nodup) :
    interpolate_photo_times rand2 (interpolate_photo_times rand1 m) =
      interpolate_photo_times rand1 m := by
  unfold interpolate_photo_times
  have hsk : sortKeys (interpolateGo rand1 (sortKeys m) [] m) = sortKeys m := by
    have hkeys := go_keys rand1 (sortKeys m) [] m (fun k hk => sortKeys_mem hk)
    unfold sortKeys at hkeys ⊢
    rw [hkeys]
  rw [hsk]
  apply go_idem
  simpa using (List.perm_insertionSort _ _).symm.nodup h
/-- C7 witness: a second pass over a concretely interpolated registry is a
no-op. -/
theorem claim_C7_witness :
    interpolate_photo_times exRand (interpolate_photo_times exRand exReg1) =
      interpolate_photo_times exRand exReg1 :=
  claim_C7 exRand exRand exReg1 (by decide)
theorem stepT_fst (rand : Int → Int → Int) (m : Registry) (prevRev nexts : List String)
    (p : String) :
    (interpolateStepT rand m prevRev nexts p).1 = interpolateStep rand m prevRev nexts p := by
  unfold interpolateStepT interpolateStep
  cases h1 : lookupTime m p with
  | some t => rfl
  | none =>
    cases h2 : is_valid_for_interpolation p with
    | false => rfl
    | true =>
      cases h3 : findNeighborTime m prevRev with
      | none => rfl
      | some pt =>
        cases h4 : findNeighborTime m nexts with
        | none => rfl
        | some nt => rfl
theorem find_mem {m : Registry} :
    ∀ (scan : List String) (nt : String), findNeighborTime m scan = some nt →
      ∃ k ∈ scan, lookupTime m k = some nt := by
  intro scan
  induction scan with
  | nil => intro nt h; cases h
  | cons k rest ih =>
    intro nt h
    unfold findNeighborTime at h
    by_cases hvk : is_valid_for_interpolation k = true
    · rw [if_pos hvk] at h
      cases hlk : lookupTime m k with
      | some t =>
        rw [hlk] at h
        have h' : some t = some nt := h
        injection h' with h'
        subst h'
        exact ⟨k, by simp, hlk⟩
      | none =>
        rw [hlk] at h
        have h' : findNeighborTime m rest = some nt := h
        obtain ⟨q, hq, hq2⟩ := ih nt h'
        exact ⟨q, by simp [hq], hq2⟩
    · rw [if_neg hvk] at h
      obtain ⟨q, hq, hq2⟩ := ih nt h
      exact ⟨q, by simp [hq], hq2⟩
theorem goT_trace (rand : Int → Int → Int) :
    ∀ (todo prevRev : List String) (m m0 : Registry), todo.Nodup →
      (∀ k ∈ todo, lookupTime m k = lookupTime m0 k) →
      ∀ e ∈ (interpolateGoT rand todo prevRev m).2,
        ∃ k ∈ todo, lookupTime m0 k = some e.2 := by
  intro todo
  induction todo with
  | nil => intro _ _ _ _ _ e he; cases he
  | cons p rest ih =>
    intro prevRev m m0 hnd hsame e he
    have hpnotin : p ∉ rest := (List.nodup_cons.mp hnd).1
    have hndrest : rest.Nodup := (List.nodup_cons.mp hnd).2
    unfold interpolateGoT at he
    rw [List.mem_append] at he
    rcases he with he | he
    · -- trace entry produced by p's own step
      unfold interpolateStepT at he
      cases h1 : lookupTime m p with
      | some t => rw [h1] at he; cases he
      | none =>
        rw [h1] at he
        by_cases h2 : is_valid_for_interpolation p = true
        · rw [if_pos h2] at he
          cases h3 : findNeighborTime m prevRev with
          | none => rw [h3] at he; cases he
          | some pt =>
            rw [h3] at he
            cases h4 : findNeighborTime m rest with
            | none => rw [h4] at he; cases he
            | some nt =>
              rw [h4] at he
              have he' : e ∈ [(try_remove_interpolated_suffix pt, nt)] := he
              have he2 : e = (try_remove_interpolated_suffix pt, nt) := by
                simpa using he'
              obtain ⟨k, hk, hk2⟩ := find_mem rest nt h4
              refine ⟨k, by simp [hk], ?_⟩
              rw [he2]
              rw [← hsame k (by simp [hk])]
              exact hk2
        · rw [if_neg h2] at he
          cases he
    · -- trace entry from the remaining loop
      have hsame' : ∀ k ∈ rest, lookupTime (interpolateStepT rand m prevRev rest p).1 k =
          lookupTime m0 k := by
        intro k hk
        rw [stepT_fst]
        have hkp : k ≠ p := fun hc => hpnotin (hc ▸ hk)
        rw [step_lookup_other rand m prevRev rest p hkp]
        exact hsame k (by simp [hk])
      obtain ⟨k, hk, hk2⟩ := ih (p :: prevRev) _ m0 hndrest hsame' e he
      exact ⟨k, by simp [hk], hk2⟩
theorem lookup_value_mem {m : Registry} {k : String} {t : String}
    (h : lookupTime m k = some t) : ∃ e ∈ m, e.2 = some t := by
  unfold lookupTime at h
  cases hf : m.find? (fun e => e.1 == k) with
  | none => rw [hf] at h; cases h
  | some e =>
    rw [hf] at h
    exact ⟨e, List.mem_of_find?_eq_some hf, h⟩
/-- C10: over a registry with distinct keys whose stored values never end in
`_interpolated_time`, every `max_time` handed to `get_random_time_between`
during the pass is a value of the initial registry — so, the forward
neighbor's time being read before that neighbor is processed, the code's
asymmetry (de-tagging only `prev_time`) can never pass a suffix-tagged
string as `max_time`. -/
theorem claim_C10 (rand : Int → Int → Int) (m : Registry)
    (hnd : (regKeys m).Nodup)
    (hclean : ∀ e ∈ m,
      e.2.all (fun t => !(INTERPOLATED_SUFFIX.data.isSuffixOf t.data)) = true) :
    ∀ e ∈ (interpolate_photo_timesT rand m).2,
      (∃ k, lookupTime m k = some e.2) ∧
      INTERPOLATED_SUFFIX.data.isSuffixOf e.2.data = false := by
  intro e he
  have hndsk : (sortKeys m).Nodup := by
    unfold sortKeys
    exact (List.perm_insertionSort _ _).symm.nodup hnd
  obtain ⟨k, _, hk⟩ :=
    goT_trace rand (sortKeys m) [] m m hndsk (fun k _ => rfl) e he
  refine ⟨⟨k, hk⟩, ?_⟩
  obtain ⟨ent, hent, hent2⟩ := lookup_value_mem hk
  have := hclean ent hent
  rw [hent2] at this
  simpa using this
/-- C10 witness: the single `get_random_time_between` call of the `exReg1`
pass receives the untagged `max_time` `2021-01-01_10:00:10`. -/
theorem claim_C10_witness :
    (∃ k, lookupTime exReg1 k = some "2021-01-01_10:00:10") ∧
    INTERPOLATED_SUFFIX.data.isSuffixOf "2021-01-01_10:00:10".data = false :=
  claim_C10 exRand exReg1 (by decide) (by decide)
    ("2021-01-01_10:00:00", "2021-01-01_10:00:10") (by decide)
